import Mathlib

/-!
Verification of the sqlquery statement compiler (package `sqlquery`).

The development embeds the repository's query-building core: the filter key
parser and condition compiler (`parseSelectFilter`, `parseUpdateFilter`,
`parseDeleteFilter`, `parseIn`), the seven statement assemblers (`FindQuery`,
`FindAllQuery`, `InsertQuery`, `UpdateQuery`, `DeleteQuery`,
`UpdateWithOptionsQuery`, `DeleteWithOptionsQuery`), and the options records
with their `With*` mutators.

Go's `interface{}` filter values are embedded as `GoValue`; a Go map's
iteration sequence is embedded as an association list, so quantifying over
all lists covers every possible iteration order of the unordered map.
Go string primitives (`strings.Contains`, `strings.Split` on a one-character
separator, byte-wise string comparison) are embedded as structurally
recursive functions over the character list of a `String`.

The underlying SQL-building toolkit (go-sqlbuilder) is an external
collaborator, out of the repository's scope; its serialization contract —
the predicate vocabulary, clause layout, `$N` versus `?` placeholder
rendering, and the placeholder/argument compilation discipline — is modelled
from the spec (sections 4.2, 4.3, 6 and the pinned end-to-end examples of
section 8) as the `Frag`/`renderFrags` layer below: every placeholder
carries the argument bound to it, and compilation walks the statement text
left to right, numbering placeholders while collecting arguments.
-/

/-- A Go `interface{}` value as used for filter values and arguments:
`nil`, an integer, a string, or a boolean. -/
inductive GoValue where
  | nil
  | int (n : Int)
  | str (s : String)
  | bool (b : Bool)
deriving DecidableEq, Repr

/-- The dialect enumeration from `options.go`: MySQL, PostgreSQL, SQLite. -/
inductive Flavor where
  | mysql
  | postgresql
  | sqlite
deriving DecidableEq, Repr

/-- Modelled from the spec: a fragment of a statement under compilation —
either literal SQL text or a placeholder bound to one argument value.
This is the toolkit's internal marker discipline: every argument is attached
to exactly the point of the text where its placeholder will be rendered. -/
inductive Frag where
  | lit (s : String)
  | arg (v : GoValue)
deriving DecidableEq, Repr

/-- A compiled condition: a fragment list. -/
abbrev Cond := List Frag

/-- Modelled from the spec: placeholder syntax per dialect — `$N` (sequential,
1-based) for PostgreSQL, `?` (positional) for MySQL and SQLite. -/
def placeholder (fl : Flavor) (n : Nat) : String :=
  match fl with
  | .postgresql => "$" ++ Nat.repr n
  | _ => "?"

/-- Modelled from the spec: final compilation. Walk the fragments left to
right; literals are copied, and each placeholder is rendered with the next
index while its value is appended to the argument list. -/
def renderFrags (fl : Flavor) : List Frag → Nat → String × List GoValue
  | [], _ => ("", [])
  | .lit s :: rest, n =>
      let r := renderFrags fl rest n
      (s ++ r.1, r.2)
  | .arg v :: rest, n =>
      let r := renderFrags fl rest (n + 1)
      (placeholder fl n ++ r.1, v :: r.2)

/-- The literal texts of a fragment list. -/
def lits (fs : List Frag) : List String :=
  fs.filterMap fun f => match f with | .lit s => some s | .arg _ => none

/-- The argument values of a fragment list, in left-to-right order. -/
def argVals (fs : List Frag) : List GoValue :=
  fs.filterMap fun f => match f with | .lit _ => none | .arg v => some v

/-- The number of placeholders a fragment list will render. -/
def numArgs (fs : List Frag) : Nat := (argVals fs).length

/-- Go `strings.Contains(s, sub)` for a one-character `sub`: does the
character occur in the string? -/
def goContains (s : String) (c : Char) : Bool :=
  s.data.contains c

/-- Go `strings.Split(s, sep)` for a one-character separator: split at every
occurrence of the character, keeping empty tokens. -/
def goSplit (c : Char) (s : String) : List String :=
  (s.data.splitOn c).map String.mk

/-- Join a list of strings with a separator (Go `strings.Join`). -/
def joinStrings (sep : String) : List String → String
  | [] => ""
  | [s] => s
  | s :: s' :: rest => s ++ sep ++ joinStrings sep (s' :: rest)

/-- Modelled from the spec: the toolkit's list-valued placeholder group
`v1, v2, …` used inside `IN (...)` and `VALUES (...)`. -/
def argList : List GoValue → List Frag
  | [] => []
  | [v] => [.arg v]
  | v :: w :: rest => .arg v :: .lit ", " :: argList (w :: rest)

/-- Modelled from the spec: `field = value` with one placeholder. -/
def condEqual (field : String) (v : GoValue) : Cond :=
  [.lit (field ++ " = "), .arg v]

/-- Modelled from the spec: `field <> value`. -/
def condNotEqual (field : String) (v : GoValue) : Cond :=
  [.lit (field ++ " <> "), .arg v]

/-- Modelled from the spec: `field > value`. -/
def condGreaterThan (field : String) (v : GoValue) : Cond :=
  [.lit (field ++ " > "), .arg v]

/-- Modelled from the spec: `field >= value`. -/
def condGreaterEqualThan (field : String) (v : GoValue) : Cond :=
  [.lit (field ++ " >= "), .arg v]

/-- Modelled from the spec: `field < value`. -/
def condLessThan (field : String) (v : GoValue) : Cond :=
  [.lit (field ++ " < "), .arg v]

/-- Modelled from the spec: `field <= value`. -/
def condLessEqualThan (field : String) (v : GoValue) : Cond :=
  [.lit (field ++ " <= "), .arg v]

/-- Modelled from the spec: `field LIKE value`. -/
def condLike (field : String) (v : GoValue) : Cond :=
  [.lit (field ++ " LIKE "), .arg v]

/-- Modelled from the spec: `field IS NULL` — no placeholder, no argument. -/
def condIsNull (field : String) : Cond :=
  [.lit (field ++ " IS NULL")]

/-- Modelled from the spec: `field IS NOT NULL` — no placeholder, no argument. -/
def condIsNotNull (field : String) : Cond :=
  [.lit (field ++ " IS NOT NULL")]

/-- Modelled from the spec: `field IN (v1, v2, …)`, one placeholder per value. -/
def condIn (field : String) (vs : List GoValue) : Cond :=
  .lit (field ++ " IN (") :: argList vs ++ [.lit ")"]

/-- Modelled from the spec: `field NOT IN (v1, v2, …)`. -/
def condNotIn (field : String) (vs : List GoValue) : Cond :=
  .lit (field ++ " NOT IN (") :: argList vs ++ [.lit ")"]

/-- `parseIn` converts a comma-separated string into the value list for an
`IN` clause: `strings.Split(value, ",")`, each token kept as a string. -/
def parseIn (value : String) : List GoValue :=
  (goSplit ',' value).map .str

/-- `parseSelectFilter` compiles one filter entry into at most one condition.
A dotted key dispatches on its second dot-segment; `in`/`notin` require a
string value, `null` requires a boolean (predicate built on the full key),
unknown operators produce nothing. A bare key is `IS NULL` for `nil` values
and equality otherwise. -/
def parseSelectFilter (key : String) (value : GoValue) : Option Cond :=
  if goContains key '.' then
    match goSplit '.' key with
    | parsedKey :: compare :: _ =>
      match compare with
      | "in" =>
        match value with
        | .str s => some (condIn parsedKey (parseIn s))
        | _ => none
      | "notin" =>
        match value with
        | .str s => some (condNotIn parsedKey (parseIn s))
        | _ => none
      | "not" => some (condNotEqual parsedKey value)
      | "gt" => some (condGreaterThan parsedKey value)
      | "gte" => some (condGreaterEqualThan parsedKey value)
      | "lt" => some (condLessThan parsedKey value)
      | "lte" => some (condLessEqualThan parsedKey value)
      | "like" => some (condLike parsedKey value)
      | "null" =>
        match value with
        | .bool true => some (condIsNull key)
        | .bool false => some (condIsNotNull key)
        | _ => none
      | _ => none
    | _ => none
  else
    match value with
    | .nil => some (condIsNull key)
    | _ => some (condEqual key value)

/-- `parseUpdateFilter`: the same dispatch, applied to the UPDATE builder's
condition sink (the source repeats the body verbatim). -/
def parseUpdateFilter (key : String) (value : GoValue) : Option Cond :=
  if goContains key '.' then
    match goSplit '.' key with
    | parsedKey :: compare :: _ =>
      match compare with
      | "in" =>
        match value with
        | .str s => some (condIn parsedKey (parseIn s))
        | _ => none
      | "notin" =>
        match value with
        | .str s => some (condNotIn parsedKey (parseIn s))
        | _ => none
      | "not" => some (condNotEqual parsedKey value)
      | "gt" => some (condGreaterThan parsedKey value)
      | "gte" => some (condGreaterEqualThan parsedKey value)
      | "lt" => some (condLessThan parsedKey value)
      | "lte" => some (condLessEqualThan parsedKey value)
      | "like" => some (condLike parsedKey value)
      | "null" =>
        match value with
        | .bool true => some (condIsNull key)
        | .bool false => some (condIsNotNull key)
        | _ => none
      | _ => none
    | _ => none
  else
    match value with
    | .nil => some (condIsNull key)
    | _ => some (condEqual key value)

/-- `parseDeleteFilter`: the same dispatch, applied to the DELETE builder's
condition sink (the source repeats the body verbatim). -/
def parseDeleteFilter (key : String) (value : GoValue) : Option Cond :=
  if goContains key '.' then
    match goSplit '.' key with
    | parsedKey :: compare :: _ =>
      match compare with
      | "in" =>
        match value with
        | .str s => some (condIn parsedKey (parseIn s))
        | _ => none
      | "notin" =>
        match value with
        | .str s => some (condNotIn parsedKey (parseIn s))
        | _ => none
      | "not" => some (condNotEqual parsedKey value)
      | "gt" => some (condGreaterThan parsedKey value)
      | "gte" => some (condGreaterEqualThan parsedKey value)
      | "lt" => some (condLessThan parsedKey value)
      | "lte" => some (condLessEqualThan parsedKey value)
      | "like" => some (condLike parsedKey value)
      | "null" =>
        match value with
        | .bool true => some (condIsNull key)
        | .bool false => some (condIsNotNull key)
        | _ => none
      | _ => none
    | _ => none
  else
    match value with
    | .nil => some (condIsNull key)
    | _ => some (condEqual key value)

/-- The SELECT filter loop: one condition per filter entry, in iteration
order, skipping entries for which no condition is produced. -/
def selectConds : List (String × GoValue) → List Cond
  | [] => []
  | (k, v) :: rest =>
      match parseSelectFilter k v with
      | some c => c :: selectConds rest
      | none => selectConds rest

/-- The UPDATE filter loop. -/
def updateConds : List (String × GoValue) → List Cond
  | [] => []
  | (k, v) :: rest =>
      match parseUpdateFilter k v with
      | some c => c :: updateConds rest
      | none => updateConds rest

/-- The DELETE filter loop. -/
def deleteConds : List (String × GoValue) → List Cond
  | [] => []
  | (k, v) :: rest =>
      match parseDeleteFilter k v with
      | some c => c :: deleteConds rest
      | none => deleteConds rest

/-- Join compiled fragments of several clauses with a literal separator. -/
def joinFrags (sep : String) : List (List Frag) → List Frag
  | [] => []
  | [c] => c
  | c :: c' :: rest => c ++ Frag.lit sep :: joinFrags sep (c' :: rest)

/-- Modelled from the spec: the WHERE clause — absent when no condition was
produced, otherwise the conditions joined with AND in emission order. -/
def whereFrags (conds : List Cond) : List Frag :=
  match conds with
  | [] => []
  | _ => Frag.lit " WHERE " :: joinFrags " AND " conds

/-- Modelled from the spec: the row-locking suffix: `FOR UPDATE`, with the
raw mode string injected verbatim after it when non-empty. -/
def forUpdateFrags (forUpdate : Bool) (mode : String) : List Frag :=
  if forUpdate then
    if mode = "" then [Frag.lit " FOR UPDATE"]
    else [Frag.lit (" FOR UPDATE " ++ mode)]
  else []

/-- `FindOptions` from `options.go`, with the filter mapping embedded as its
iteration sequence. -/
structure FindOptions where
  Flavor : Flavor
  Fields : List String
  Filters : List (String × GoValue)
  ForUpdate : Bool
  ForUpdateMode : String
deriving DecidableEq, Repr

/-- `FindAllOptions` from `options.go`. -/
structure FindAllOptions where
  Flavor : Flavor
  Fields : List String
  Filters : List (String × GoValue)
  Limit : Int
  Offset : Int
  OrderBy : String
  ForUpdate : Bool
  ForUpdateMode : String
deriving DecidableEq, Repr

/-- `UpdateOptions` from `options.go`, with assignment and filter mappings
embedded as iteration sequences. -/
structure UpdateOptions where
  Flavor : Flavor
  Assignments : List (String × GoValue)
  Filters : List (String × GoValue)
deriving DecidableEq, Repr

/-- `DeleteOptions` from `options.go`. -/
structure DeleteOptions where
  Flavor : Flavor
  Filters : List (String × GoValue)
deriving DecidableEq, Repr

/-- The fragments of a `FindQuery` statement. -/
def findFrags (tableName : String) (o : FindOptions) : List Frag :=
  Frag.lit ("SELECT " ++ joinStrings ", " o.Fields ++ " FROM " ++ tableName)
    :: whereFrags (selectConds o.Filters)
    ++ forUpdateFrags o.ForUpdate o.ForUpdateMode

/-- `FindQuery` compiles a SELECT with filters and optional row locking. -/
def FindQuery (tableName : String) (options : FindOptions) : String × List GoValue :=
  renderFrags options.Flavor (findFrags tableName options) 1

/-- The fragments of a `FindAllQuery` statement: SELECT, WHERE, optional
ORDER BY, then LIMIT and OFFSET (both always emitted, parameterized), then
the optional locking suffix. -/
def findAllFrags (tableName : String) (o : FindAllOptions) : List Frag :=
  Frag.lit ("SELECT " ++ joinStrings ", " o.Fields ++ " FROM " ++ tableName)
    :: whereFrags (selectConds o.Filters)
    ++ (if o.OrderBy = "" then [] else [Frag.lit (" ORDER BY " ++ o.OrderBy)])
    ++ [Frag.lit " LIMIT ", Frag.arg (.int o.Limit),
        Frag.lit " OFFSET ", Frag.arg (.int o.Offset)]
    ++ forUpdateFrags o.ForUpdate o.ForUpdateMode

/-- `FindAllQuery` compiles a SELECT with filters, pagination, ordering and
optional row locking. -/
def FindAllQuery (tableName : String) (options : FindAllOptions) : String × List GoValue :=
  renderFrags options.Flavor (findAllFrags tableName options) 1

/-- The fragments of an `InsertQuery` statement built from the extracted
(column, value) list. -/
def insertFrags (tableName : String) (cols : List (String × GoValue)) : List Frag :=
  Frag.lit ("INSERT INTO " ++ tableName ++ " ("
      ++ joinStrings ", " (cols.map Prod.fst) ++ ") VALUES (")
    :: argList (cols.map Prod.snd)
    ++ [Frag.lit ")"]

/-- Modelled from the spec: `InsertQuery` delegates struct-to-column
extraction to the external collaborator `extractColumns(record, tag)`; the
embedding takes the resulting ordered (column, value) list and renders one
INSERT with aligned columns and values. -/
def InsertQuery (flavor : Flavor) (tableName : String)
    (cols : List (String × GoValue)) : String × List GoValue :=
  renderFrags flavor (insertFrags tableName cols) 1

/-- The fragments of an `UpdateQuery` statement built from the extracted
(column, value) list and the id condition. -/
def updateFrags (tableName : String) (id : GoValue)
    (cols : List (String × GoValue)) : List Frag :=
  Frag.lit ("UPDATE " ++ tableName ++ " SET ")
    :: joinFrags ", " (cols.map fun c => [Frag.lit (c.1 ++ " = "), Frag.arg c.2])
    ++ Frag.lit " WHERE " :: condEqual "id" id

/-- Modelled from the spec: `UpdateQuery` delegates struct-to-column
extraction to the external collaborator; the embedding takes the ordered
(column, value) list for the SET clause and appends the single condition
`id = providedID`. -/
def UpdateQuery (flavor : Flavor) (tableName : String) (id : GoValue)
    (cols : List (String × GoValue)) : String × List GoValue :=
  renderFrags flavor (updateFrags tableName id cols) 1

/-- The fragments of a `DeleteQuery` statement. -/
def deleteFrags (tableName : String) (id : GoValue) : List Frag :=
  Frag.lit ("DELETE FROM " ++ tableName ++ " WHERE ") :: condEqual "id" id

/-- `DeleteQuery` compiles `DELETE FROM table WHERE id = providedID`. -/
def DeleteQuery (flavor : Flavor) (tableName : String) (id : GoValue) :
    String × List GoValue :=
  renderFrags flavor (deleteFrags tableName id) 1

/-- Byte-wise lexicographic string comparison (Go `sort.Strings` order),
structurally recursive over the character lists. -/
def lexLe : List Char → List Char → Bool
  | [], _ => true
  | _ :: _, [] => false
  | a :: as, b :: bs =>
      if a.toNat < b.toNat then true
      else if b.toNat < a.toNat then false
      else lexLe as bs

/-- The textual renderings of the assignments, in iteration order: each
entry becomes `key = $i` where `$i` is the toolkit's internal marker for the
i-th added argument, paired with the (key, value) it stands for. -/
def assignPairs : List (String × GoValue) → Nat → List (String × String × GoValue)
  | [], _ => []
  | (k, v) :: rest, i => (k ++ " = $" ++ Nat.repr i, k, v) :: assignPairs rest (i + 1)

/-- Insert one rendered assignment into a list sorted by its text. -/
def insertSorted (x : String × String × GoValue) :
    List (String × String × GoValue) → List (String × String × GoValue)
  | [] => [x]
  | y :: rest =>
      if lexLe x.1.data y.1.data then x :: y :: rest
      else y :: insertSorted x rest

/-- Sort rendered assignments by their text (Go `sort.Strings`). -/
def sortAssigns : List (String × String × GoValue) → List (String × String × GoValue)
  | [] => []
  | x :: rest => insertSorted x (sortAssigns rest)

/-- `UpdateWithOptionsQuery` compiles an UPDATE whose SET list is built from
the assignment mapping, sorted by the textual rendering of each assignment,
followed by the filter-driven WHERE clause. -/
def updateWithOptionsFrags (tableName : String) (o : UpdateOptions) : List Frag :=
  Frag.lit ("UPDATE " ++ tableName ++ " SET ")
    :: joinFrags ", "
        ((sortAssigns (assignPairs o.Assignments 0)).map
          fun a => [Frag.lit (a.2.1 ++ " = "), Frag.arg a.2.2])
    ++ whereFrags (updateConds o.Filters)

/-- `UpdateWithOptionsQuery` compiles the fragments above. -/
def UpdateWithOptionsQuery (tableName : String) (options : UpdateOptions) :
    String × List GoValue :=
  renderFrags options.Flavor (updateWithOptionsFrags tableName options) 1

/-- `DeleteWithOptionsQuery` compiles a DELETE driven purely by the
filter-driven WHERE clause. -/
def deleteWithOptionsFrags (tableName : String) (o : DeleteOptions) : List Frag :=
  Frag.lit ("DELETE FROM " ++ tableName)
    :: whereFrags (deleteConds o.Filters)

/-- `DeleteWithOptionsQuery` compiles the fragments above. -/
def DeleteWithOptionsQuery (tableName : String) (options : DeleteOptions) :
    String × List GoValue :=
  renderFrags options.Flavor (deleteWithOptionsFrags tableName options) 1


namespace OptionsModel

/-!
The options records of `options.go`, modelled with Go's reference semantics
for maps: a `map[string]interface{}` field holds a reference into a heap of
map contents, and the `With*` mutators copy the top-level struct (so the
reference is copied, not the map) and then write through the shared
reference.
-/

/-- A reference to a Go map value. -/
abbrev MapRef := Nat

/-- The contents of a Go map, as an association list. -/
abbrev GoMap := List (String × GoValue)

/-- The store of allocated maps: reference to contents. -/
abbrev Heap := MapRef → GoMap

/-- Go map assignment `m[k] = v`: replace the binding if present, else add. -/
def mapSet : GoMap → String → GoValue → GoMap
  | [], k, v => [(k, v)]
  | (k', v') :: rest, k, v =>
      if k' = k then (k, v) :: rest else (k', v') :: mapSet rest k v

/-- Go map lookup `m[k]`. -/
def mapGet : GoMap → String → Option GoValue
  | [], _ => none
  | (k', v') :: rest, k => if k' = k then some v' else mapGet rest k

/-- Mutate the map behind reference `r` in the heap. -/
def heapSet (h : Heap) (r : MapRef) (k : String) (v : GoValue) : Heap :=
  fun r' => if r' = r then mapSet (h r) k v else h r'

/-- `FindOptions` with its filter map held by reference. -/
structure FindOptions where
  Flavor : Flavor
  Fields : List String
  Filters : MapRef
  ForUpdate : Bool
  ForUpdateMode : String
deriving DecidableEq, Repr

/-- `FindOptions.WithFields`: `copy := *f; copy.Fields = fields`. -/
def FindOptions.WithFields (f : FindOptions) (fields : List String) : FindOptions :=
  { f with Fields := fields }

/-- `FindOptions.WithFilter`: `copy := *f; copy.Filters[field] = value` —
the struct is copied, the shared map mutated through the copied reference. -/
def FindOptions.WithFilter (f : FindOptions) (field : String) (value : GoValue)
    (h : Heap) : FindOptions × Heap :=
  (f, heapSet h f.Filters field value)

/-- `FindOptions.WithForUpdate`: sets `ForUpdate` and `ForUpdateMode`. -/
def FindOptions.WithForUpdate (f : FindOptions) (mode : String) : FindOptions :=
  { f with ForUpdate := true, ForUpdateMode := mode }

/-- `FindAllOptions` with its filter map held by reference. -/
structure FindAllOptions where
  Flavor : Flavor
  Fields : List String
  Filters : MapRef
  Limit : Int
  Offset : Int
  OrderBy : String
  ForUpdate : Bool
  ForUpdateMode : String
deriving DecidableEq, Repr

/-- `FindAllOptions.WithFields`. -/
def FindAllOptions.WithFields (f : FindAllOptions) (fields : List String) :
    FindAllOptions :=
  { f with Fields := fields }

/-- `FindAllOptions.WithFilter`. -/
def FindAllOptions.WithFilter (f : FindAllOptions) (field : String)
    (value : GoValue) (h : Heap) : FindAllOptions × Heap :=
  (f, heapSet h f.Filters field value)

/-- `FindAllOptions.WithLimit`. -/
def FindAllOptions.WithLimit (f : FindAllOptions) (limit : Int) : FindAllOptions :=
  { f with Limit := limit }

/-- `FindAllOptions.WithOffset`. -/
def FindAllOptions.WithOffset (f : FindAllOptions) (offset : Int) : FindAllOptions :=
  { f with Offset := offset }

/-- `FindAllOptions.WithOrderBy`. -/
def FindAllOptions.WithOrderBy (f : FindAllOptions) (orderBy : String) :
    FindAllOptions :=
  { f with OrderBy := orderBy }

/-- `FindAllOptions.WithForUpdate`. -/
def FindAllOptions.WithForUpdate (f : FindAllOptions) (mode : String) :
    FindAllOptions :=
  { f with ForUpdate := true, ForUpdateMode := mode }

/-- `UpdateOptions` with assignment and filter maps held by reference. -/
structure UpdateOptions where
  Flavor : Flavor
  Assignments : MapRef
  Filters : MapRef
deriving DecidableEq, Repr

/-- `UpdateOptions.WithAssignment`: struct copied, shared assignment map
mutated through the copied reference. -/
def UpdateOptions.WithAssignment (u : UpdateOptions) (field : String)
    (value : GoValue) (h : Heap) : UpdateOptions × Heap :=
  (u, heapSet h u.Assignments field value)

/-- `UpdateOptions.WithFilter`. -/
def UpdateOptions.WithFilter (u : UpdateOptions) (field : String)
    (value : GoValue) (h : Heap) : UpdateOptions × Heap :=
  (u, heapSet h u.Filters field value)

/-- `DeleteOptions` with its filter map held by reference. -/
structure DeleteOptions where
  Flavor : Flavor
  Filters : MapRef
deriving DecidableEq, Repr

/-- `DeleteOptions.WithFilter`. -/
def DeleteOptions.WithFilter (d : DeleteOptions) (field : String)
    (value : GoValue) (h : Heap) : DeleteOptions × Heap :=
  (d, heapSet h d.Filters field value)

end OptionsModel

/-- The placeholder-introducing character of a dialect: `$` for PostgreSQL,
`?` for MySQL and SQLite. -/
def phChar : Flavor → Char
  | .postgresql => '$'
  | _ => '?'

/-- A string free of the dialect's placeholder character, so that counting
placeholders in the compiled SQL text is unambiguous. -/
abbrev cleanStr (fl : Flavor) (s : String) : Prop := phChar fl ∉ s.data

/-- Is this value a Go `string` (the `value.(string)` type assertion)? -/
def GoValue.isStr : GoValue → Bool
  | .str _ => true
  | _ => false

/-- Is this value a Go `bool` (the `value.(bool)` type assertion)? -/
def GoValue.isBool : GoValue → Bool
  | .bool _ => true
  | _ => false

/-- The closed set of recognized operator suffixes. -/
def recognizedOps : List String :=
  ["in", "notin", "not", "gt", "gte", "lt", "lte", "like", "null"]

/-- A malformed filter entry in the sense of the spec: a dotted key whose
operator is `in`/`notin` with a non-string value, `null` with a non-boolean
value, or an operator suffix outside the recognized set. -/
abbrev MalformedEntry (key : String) (value : GoValue) : Prop :=
  goContains key '.' = true ∧
  match goSplit '.' key with
  | _ :: op :: _ =>
      ((op = "in" ∨ op = "notin") ∧ value.isStr = false) ∨
      (op = "null" ∧ value.isBool = false) ∨
      op ∉ recognizedOps
  | _ => False

/-! ### Fragment bookkeeping lemmas -/

theorem lits_nil : lits [] = [] := rfl

theorem lits_cons_lit (s : String) (fs : List Frag) :
    lits (.lit s :: fs) = s :: lits fs := rfl

theorem lits_cons_arg (v : GoValue) (fs : List Frag) :
    lits (.arg v :: fs) = lits fs := rfl

theorem lits_append (a b : List Frag) : lits (a ++ b) = lits a ++ lits b :=
  List.filterMap_append ..

theorem argVals_nil : argVals [] = [] := rfl

theorem argVals_cons_lit (s : String) (fs : List Frag) :
    argVals (.lit s :: fs) = argVals fs := rfl

theorem argVals_cons_arg (v : GoValue) (fs : List Frag) :
    argVals (.arg v :: fs) = v :: argVals fs := rfl

theorem argVals_append (a b : List Frag) : argVals (a ++ b) = argVals a ++ argVals b :=
  List.filterMap_append ..

theorem numArgs_append (a b : List Frag) : numArgs (a ++ b) = numArgs a + numArgs b := by
  simp [numArgs, argVals_append]

theorem numArgs_cons_lit (s : String) (fs : List Frag) :
    numArgs (.lit s :: fs) = numArgs fs := rfl

theorem numArgs_cons_arg (v : GoValue) (fs : List Frag) :
    numArgs (.arg v :: fs) = numArgs fs + 1 := rfl

/-! ### Rendering lemmas -/

theorem digitChar_ne : ∀ (m : Nat), Nat.digitChar m ≠ '$' ∧ Nat.digitChar m ≠ '?'
  | 0 => ⟨by decide, by decide⟩
  | 1 => ⟨by decide, by decide⟩
  | 2 => ⟨by decide, by decide⟩
  | 3 => ⟨by decide, by decide⟩
  | 4 => ⟨by decide, by decide⟩
  | 5 => ⟨by decide, by decide⟩
  | 6 => ⟨by decide, by decide⟩
  | 7 => ⟨by decide, by decide⟩
  | 8 => ⟨by decide, by decide⟩
  | 9 => ⟨by decide, by decide⟩
  | 10 => ⟨by decide, by decide⟩
  | 11 => ⟨by decide, by decide⟩
  | 12 => ⟨by decide, by decide⟩
  | 13 => ⟨by decide, by decide⟩
  | 14 => ⟨by decide, by decide⟩
  | 15 => ⟨by decide, by decide⟩
  | (n + 16) => by
      have h : Nat.digitChar (n + 16) = '*' := by
        unfold Nat.digitChar
        repeat rw [if_neg (by omega)]
      rw [h]
      exact ⟨by decide, by decide⟩

theorem toDigitsCore_ne : ∀ (f n : Nat) (l : List Char),
    (∀ x ∈ l, x ≠ '$' ∧ x ≠ '?') →
    ∀ x ∈ Nat.toDigitsCore 10 f n l, x ≠ '$' ∧ x ≠ '?' := by
  intro f
  induction f with
  | zero => intro n l h; simpa [Nat.toDigitsCore] using h
  | succ f ih =>
    intro n l h
    simp only [Nat.toDigitsCore]
    split
    · intro x hx
      rcases List.mem_cons.mp hx with rfl | hx
      · exact digitChar_ne _
      · exact h x hx
    · apply ih
      intro x hx
      rcases List.mem_cons.mp hx with rfl | hx
      · exact digitChar_ne _
      · exact h x hx

theorem repr_ne (n : Nat) : ∀ x ∈ (Nat.repr n).data, x ≠ '$' ∧ x ≠ '?' := by
  have h : (Nat.repr n).data = Nat.toDigitsCore 10 (n + 1) n [] := rfl
  rw [h]
  exact toDigitsCore_ne (n + 1) n [] (by simp)

theorem count_placeholder (fl : Flavor) (n : Nat) :
    ((placeholder fl n).data.count (phChar fl)) = 1 := by
  cases fl with
  | postgresql =>
    show (("$" ++ Nat.repr n).data.count '$') = 1
    rw [String.data_append, List.count_append]
    have h2 : ((Nat.repr n).data.count '$') = 0 := by
      rw [List.count_eq_zero]
      intro hmem
      exact (repr_ne n _ hmem).1 rfl
    rw [h2]
    decide
  | mysql =>
    show (("?" : String).data.count '?') = 1
    decide
  | sqlite =>
    show (("?" : String).data.count '?') = 1
    decide

theorem renderFrags_snd (fl : Flavor) : ∀ (fs : List Frag) (n : Nat),
    (renderFrags fl fs n).2 = argVals fs := by
  intro fs
  induction fs with
  | nil => intro n; rfl
  | cons f rest ih =>
    intro n
    cases f with
    | lit s => simpa [renderFrags, argVals_cons_lit] using ih n
    | arg v => simp [renderFrags, argVals_cons_arg, ih]

theorem count_renderFrags (fl : Flavor) : ∀ (fs : List Frag) (n : Nat),
    (∀ s ∈ lits fs, phChar fl ∉ s.data) →
    ((renderFrags fl fs n).1.data.count (phChar fl)) = numArgs fs := by
  intro fs
  induction fs with
  | nil => intro n _; rfl
  | cons f rest ih =>
    intro n h
    cases f with
    | lit s =>
      have hs : phChar fl ∉ s.data := h s (by rw [lits_cons_lit]; exact List.mem_cons_self ..)
      have hr := ih n (fun t ht => h t (by rw [lits_cons_lit]; exact List.mem_cons_of_mem _ ht))
      simp only [renderFrags, String.data_append, List.count_append]
      rw [List.count_eq_zero.mpr hs, hr]
      simp [numArgs, argVals_cons_lit]
    | arg v =>
      have hr := ih (n + 1) (fun t ht => h t (by rwa [lits_cons_arg]))
      simp only [renderFrags, String.data_append, List.count_append]
      rw [count_placeholder, hr]
      simp [numArgs, argVals_cons_arg]
      omega

theorem renderFrags_fst_append (fl : Flavor) : ∀ (a b : List Frag) (n : Nat),
    (renderFrags fl (a ++ b) n).1 =
      (renderFrags fl a n).1 ++ (renderFrags fl b (n + numArgs a)).1 := by
  intro a
  induction a with
  | nil =>
    intro b n
    show (renderFrags fl b n).1 = "" ++ (renderFrags fl b (n + numArgs [])).1
    rw [String.empty_append]
    rfl
  | cons f rest ih =>
    intro b n
    cases f with
    | lit s =>
      simp only [List.cons_append, renderFrags, List.append_eq]
      rw [ih b n, numArgs_cons_lit, String.append_assoc]
    | arg v =>
      simp only [List.cons_append, renderFrags, List.append_eq]
      rw [ih b (n + 1), numArgs_cons_arg]
      have h : n + 1 + numArgs rest = n + (numArgs rest + 1) := by omega
      rw [h, String.append_assoc]

/-! ### Splitting lemmas -/

theorem splitOnP_length (p : Char → Bool) : ∀ (l : List Char),
    (List.splitOnP p l).length = l.countP p + 1 := by
  intro l
  induction l with
  | nil => simp [List.splitOnP_nil]
  | cons x xs ih =>
    rw [List.splitOnP_cons, List.countP_cons]
    by_cases h : p x
    · rw [if_pos h, if_pos h]
      simp only [List.length_cons]
      omega
    · rw [if_neg h, if_neg h]
      rcases List.exists_cons_of_ne_nil (List.splitOnP_ne_nil p xs) with ⟨hd, tl, heq⟩
      rw [heq] at ih ⊢
      simp only [List.modifyHead_cons, List.length_cons] at ih ⊢
      omega

theorem mem_of_mem_splitOnP (p : Char → Bool) : ∀ (l : List Char) (part : List Char),
    part ∈ List.splitOnP p l → ∀ a ∈ part, a ∈ l := by
  intro l
  induction l with
  | nil =>
    intro part hp a ha
    rw [List.splitOnP_nil, List.mem_singleton] at hp
    subst hp
    simp at ha
  | cons x xs ih =>
    intro part hp a ha
    rw [List.splitOnP_cons] at hp
    by_cases h : p x
    · rw [if_pos h] at hp
      rcases List.mem_cons.mp hp with rfl | hp
      · simp at ha
      · exact List.mem_cons_of_mem _ (ih part hp a ha)
    · rw [if_neg h] at hp
      rcases List.exists_cons_of_ne_nil (List.splitOnP_ne_nil p xs) with ⟨hd, tl, heq⟩
      rw [heq, List.modifyHead_cons] at hp
      rcases List.mem_cons.mp hp with rfl | hp
      · rcases List.mem_cons.mp ha with rfl | ha
        · exact List.mem_cons_self ..
        · exact List.mem_cons_of_mem _
            (ih hd (by rw [heq]; exact List.mem_cons_self ..) a ha)
      · exact List.mem_cons_of_mem _
          (ih part (by rw [heq]; exact List.mem_cons_of_mem _ hp) a ha)

theorem goSplit_length (c : Char) (s : String) :
    (goSplit c s).length = s.data.countP (· == c) + 1 := by
  unfold goSplit
  rw [List.length_map]
  exact splitOnP_length (· == c) s.data

theorem goSplit_ne_nil (c : Char) (s : String) : goSplit c s ≠ [] := by
  unfold goSplit
  intro h
  exact List.splitOnP_ne_nil (· == c) s.data (List.map_eq_nil_iff.mp h)

theorem goSplit_two_of_contains (c : Char) (s : String) (h : goContains s c = true) :
    ∃ a b rest, goSplit c s = a :: b :: rest := by
  have hc : c ∈ s.data := by
    have := (List.contains_iff_exists_mem_beq).mp h
    rcases this with ⟨a, ha, hbeq⟩
    rcases (beq_iff_eq ..).mp hbeq with rfl
    exact ha
  have hcount : 0 < s.data.countP (· == c) := by
    rw [List.countP_pos_iff]
    exact ⟨c, hc, by simp⟩
  have hlen : 2 ≤ (goSplit c s).length := by
    rw [goSplit_length]
    omega
  match hsp : goSplit c s with
  | [] => rw [hsp] at hlen; simp at hlen
  | [a] => rw [hsp] at hlen; simp at hlen
  | a :: b :: rest => exact ⟨a, b, rest, rfl⟩

theorem mem_data_of_mem_goSplit (c : Char) (s t : String)
    (h : t ∈ goSplit c s) : ∀ a ∈ t.data, a ∈ s.data := by
  unfold goSplit at h
  rcases List.mem_map.mp h with ⟨part, hpart, rfl⟩
  exact mem_of_mem_splitOnP (· == c) s.data part hpart

/-! ### Condition-shape lemmas -/

theorem argList_numArgs : ∀ (vs : List GoValue), numArgs (argList vs) = vs.length := by
  intro vs
  induction vs with
  | nil => rfl
  | cons v rest ih =>
    cases rest with
    | nil => rfl
    | cons w rest' =>
      show numArgs (.arg v :: .lit ", " :: argList (w :: rest')) = (w :: rest').length + 1
      rw [numArgs_cons_arg, numArgs_cons_lit, ih]

theorem argList_argVals : ∀ (vs : List GoValue), argVals (argList vs) = vs := by
  intro vs
  induction vs with
  | nil => rfl
  | cons v rest ih =>
    cases rest with
    | nil => rfl
    | cons w rest' =>
      show argVals (.arg v :: .lit ", " :: argList (w :: rest')) = v :: w :: rest'
      rw [argVals_cons_arg, argVals_cons_lit, ih]

theorem argList_lits : ∀ (vs : List GoValue), ∀ s ∈ lits (argList vs), s = ", " := by
  intro vs
  induction vs with
  | nil => intro s hs; simp [argList, lits] at hs
  | cons v rest ih =>
    cases rest with
    | nil => intro s hs; simp [argList, lits] at hs
    | cons w rest' =>
      intro s hs
      show s = ", "
      rw [show argList (v :: w :: rest') = .arg v :: .lit ", " :: argList (w :: rest') from rfl,
        lits_cons_arg, lits_cons_lit] at hs
      rcases List.mem_cons.mp hs with rfl | hs
      · rfl
      · exact ih s hs

theorem phChar_cases (fl : Flavor) : phChar fl = '$' ∨ phChar fl = '?' := by
  cases fl
  · exact Or.inr rfl
  · exact Or.inl rfl
  · exact Or.inr rfl

theorem phChar_not_mem_token (fl : Flavor) (t : String)
    (h : '$' ∉ t.data ∧ '?' ∉ t.data) : phChar fl ∉ t.data := by
  rcases phChar_cases fl with hc | hc <;> rw [hc]
  · exact h.1
  · exact h.2

theorem not_mem_append_str (c : Char) (s t : String)
    (hs : c ∉ s.data) (ht : c ∉ t.data) : c ∉ (s ++ t).data := by
  rw [String.data_append]
  intro h
  rcases List.mem_append.mp h with h | h
  · exact hs h
  · exact ht h

/-! ### Cleanliness of compiled literals -/

theorem clean_binary (fl : Flavor) (f tok : String) (v : GoValue)
    (hf : phChar fl ∉ f.data) (htok : '$' ∉ tok.data ∧ '?' ∉ tok.data) :
    ∀ s ∈ lits [Frag.lit (f ++ tok), Frag.arg v], phChar fl ∉ s.data := by
  intro s hs
  rw [lits_cons_lit, lits_cons_arg, lits_nil, List.mem_singleton] at hs
  subst hs
  exact not_mem_append_str _ _ _ hf (phChar_not_mem_token fl tok htok)

theorem clean_unary (fl : Flavor) (f tok : String)
    (hf : phChar fl ∉ f.data) (htok : '$' ∉ tok.data ∧ '?' ∉ tok.data) :
    ∀ s ∈ lits [Frag.lit (f ++ tok)], phChar fl ∉ s.data := by
  intro s hs
  rw [lits_cons_lit, lits_nil, List.mem_singleton] at hs
  subst hs
  exact not_mem_append_str _ _ _ hf (phChar_not_mem_token fl tok htok)

theorem clean_inlist (fl : Flavor) (f tok : String) (vs : List GoValue)
    (hf : phChar fl ∉ f.data) (htok : '$' ∉ tok.data ∧ '?' ∉ tok.data) :
    ∀ s ∈ lits (Frag.lit (f ++ tok) :: argList vs ++ [Frag.lit ")"]),
      phChar fl ∉ s.data := by
  intro s hs
  rw [lits_append, lits_cons_lit] at hs
  rcases List.mem_append.mp hs with hs | hs
  · rcases List.mem_cons.mp hs with rfl | hs
    · exact not_mem_append_str _ _ _ hf (phChar_not_mem_token fl tok htok)
    · rw [argList_lits vs s hs]
      exact phChar_not_mem_token fl ", " ⟨by decide, by decide⟩
  · rw [lits_cons_lit, lits_nil, List.mem_singleton] at hs
    subst hs
    exact phChar_not_mem_token fl ")" ⟨by decide, by decide⟩

theorem parseSelectFilter_lits_clean (fl : Flavor) (key : String) (value : GoValue)
    (c : Cond) (hk : phChar fl ∉ key.data) (h : parseSelectFilter key value = some c) :
    ∀ s ∈ lits c, phChar fl ∉ s.data := by
  unfold parseSelectFilter at h
  split at h
  case isTrue hdot =>
    split at h
    case h_1 parsedKey compare rest heq =>
      have hpk : phChar fl ∉ parsedKey.data := by
        intro hmem
        exact hk (mem_data_of_mem_goSplit '.' key parsedKey
          (heq ▸ List.mem_cons_self ..) _ hmem)
      split at h
      · -- in
        split at h
        case h_1 sv =>
          injection h with h
          subst h
          exact clean_inlist fl parsedKey " IN (" (parseIn sv) hpk ⟨by decide, by decide⟩
        case h_2 => exact absurd h (by simp)
      · -- notin
        split at h
        case h_1 sv =>
          injection h with h
          subst h
          exact clean_inlist fl parsedKey " NOT IN (" (parseIn sv) hpk ⟨by decide, by decide⟩
        case h_2 => exact absurd h (by simp)
      · -- not
        injection h with h
        subst h
        exact clean_binary fl parsedKey " <> " value hpk ⟨by decide, by decide⟩
      · -- gt
        injection h with h
        subst h
        exact clean_binary fl parsedKey " > " value hpk ⟨by decide, by decide⟩
      · -- gte
        injection h with h
        subst h
        exact clean_binary fl parsedKey " >= " value hpk ⟨by decide, by decide⟩
      · -- lt
        injection h with h
        subst h
        exact clean_binary fl parsedKey " < " value hpk ⟨by decide, by decide⟩
      · -- lte
        injection h with h
        subst h
        exact clean_binary fl parsedKey " <= " value hpk ⟨by decide, by decide⟩
      · -- like
        injection h with h
        subst h
        exact clean_binary fl parsedKey " LIKE " value hpk ⟨by decide, by decide⟩
      · -- null
        split at h
        · injection h with h
          subst h
          exact clean_unary fl key " IS NULL" hk ⟨by decide, by decide⟩
        · injection h with h
          subst h
          exact clean_unary fl key " IS NOT NULL" hk ⟨by decide, by decide⟩
        · exact absurd h (by simp)
      · -- unknown operator
        exact absurd h (by simp)
    case h_2 => exact absurd h (by simp)
  case isFalse hdot =>
    split at h
    · injection h with h
      subst h
      exact clean_unary fl key " IS NULL" hk ⟨by decide, by decide⟩
    · injection h with h
      subst h
      exact clean_binary fl key " = " value hk ⟨by decide, by decide⟩

theorem parseUpdateFilter_eq_select : parseUpdateFilter = parseSelectFilter := rfl

theorem parseDeleteFilter_eq_select : parseDeleteFilter = parseSelectFilter := rfl

theorem selectConds_lits_clean (fl : Flavor) : ∀ (l : List (String × GoValue)),
    (∀ p ∈ l, phChar fl ∉ p.1.data) →
    ∀ c ∈ selectConds l, ∀ s ∈ lits c, phChar fl ∉ s.data := by
  intro l
  induction l with
  | nil => intro _ c hc; simp [selectConds] at hc
  | cons kv rest ih =>
    intro hl c hc
    obtain ⟨k, v⟩ := kv
    unfold selectConds at hc
    split at hc
    case h_1 cond heq =>
      rcases List.mem_cons.mp hc with rfl | hc
      · exact parseSelectFilter_lits_clean fl k v c (hl (k, v) (List.mem_cons_self ..)) heq
      · exact ih (fun p hp => hl p (List.mem_cons_of_mem _ hp)) c hc
    case h_2 heq => exact ih (fun p hp => hl p (List.mem_cons_of_mem _ hp)) c hc

theorem updateConds_eq_select : updateConds = selectConds := by
  funext l
  induction l with
  | nil => rfl
  | cons kv rest ih =>
    obtain ⟨k, v⟩ := kv
    show updateConds ((k, v) :: rest) = selectConds ((k, v) :: rest)
    unfold updateConds selectConds
    rw [parseUpdateFilter_eq_select, ih]

theorem deleteConds_eq_select : deleteConds = selectConds := by
  funext l
  induction l with
  | nil => rfl
  | cons kv rest ih =>
    obtain ⟨k, v⟩ := kv
    show deleteConds ((k, v) :: rest) = selectConds ((k, v) :: rest)
    unfold deleteConds selectConds
    rw [parseDeleteFilter_eq_select, ih]

theorem joinFrags_lits_clean (fl : Flavor) (sep : String) (hsep : phChar fl ∉ sep.data) :
    ∀ (cs : List Cond), (∀ c ∈ cs, ∀ s ∈ lits c, phChar fl ∉ s.data) →
    ∀ s ∈ lits (joinFrags sep cs), phChar fl ∉ s.data := by
  intro cs
  induction cs with
  | nil => intro _ s hs; simp [joinFrags, lits] at hs
  | cons c rest ih =>
    cases rest with
    | nil =>
      intro h s hs
      exact h c (List.mem_cons_self ..) s (by simpa [joinFrags] using hs)
    | cons c' rest' =>
      intro h s hs
      rw [show joinFrags sep (c :: c' :: rest') =
            c ++ Frag.lit sep :: joinFrags sep (c' :: rest') from rfl,
          lits_append, lits_cons_lit] at hs
      rcases List.mem_append.mp hs with hs | hs
      · exact h c (List.mem_cons_self ..) s hs
      · rcases List.mem_cons.mp hs with rfl | hs
        · exact hsep
        · exact ih (fun d hd => h d (List.mem_cons_of_mem _ hd)) s hs

theorem whereFrags_lits_clean (fl : Flavor) (cs : List Cond)
    (h : ∀ c ∈ cs, ∀ s ∈ lits c, phChar fl ∉ s.data) :
    ∀ s ∈ lits (whereFrags cs), phChar fl ∉ s.data := by
  intro s hs
  cases cs with
  | nil => simp [whereFrags, lits] at hs
  | cons c rest =>
    rw [show whereFrags (c :: rest) =
          Frag.lit " WHERE " :: joinFrags " AND " (c :: rest) from rfl,
        lits_cons_lit] at hs
    rcases List.mem_cons.mp hs with rfl | hs
    · exact phChar_not_mem_token fl " WHERE " ⟨by decide, by decide⟩
    · exact joinFrags_lits_clean fl " AND "
        (phChar_not_mem_token fl " AND " ⟨by decide, by decide⟩) (c :: rest) h s hs

theorem forUpdateFrags_lits_clean (fl : Flavor) (b : Bool) (mode : String)
    (hm : phChar fl ∉ mode.data) :
    ∀ s ∈ lits (forUpdateFrags b mode), phChar fl ∉ s.data := by
  intro s hs
  unfold forUpdateFrags at hs
  split at hs
  · split at hs
    · rw [lits_cons_lit, lits_nil, List.mem_singleton] at hs
      subst hs
      exact phChar_not_mem_token fl " FOR UPDATE" ⟨by decide, by decide⟩
    · rw [lits_cons_lit, lits_nil, List.mem_singleton] at hs
      subst hs
      exact not_mem_append_str _ _ _
        (phChar_not_mem_token fl " FOR UPDATE " ⟨by decide, by decide⟩) hm
  · simp [lits] at hs

theorem joinStrings_not_mem (c : Char) (sep : String) (hsep : c ∉ sep.data) :
    ∀ (l : List String), (∀ s ∈ l, c ∉ s.data) → c ∉ (joinStrings sep l).data := by
  intro l
  induction l with
  | nil => intro _; simp [joinStrings]
  | cons s rest ih =>
    cases rest with
    | nil => intro h; exact h s (List.mem_cons_self ..)
    | cons s' rest' =>
      intro h
      exact not_mem_append_str _ _ _
        (not_mem_append_str _ _ _ (h s (List.mem_cons_self ..)) hsep)
        (ih fun t ht => h t (List.mem_cons_of_mem _ ht))

/-! ### Statement-level cleanliness -/

theorem findFrags_lits_clean (o : FindOptions) (t : String)
    (ht : phChar o.Flavor ∉ t.data)
    (hf : ∀ f ∈ o.Fields, phChar o.Flavor ∉ f.data)
    (hk : ∀ p ∈ o.Filters, phChar o.Flavor ∉ p.1.data)
    (hm : phChar o.Flavor ∉ o.ForUpdateMode.data) :
    ∀ s ∈ lits (findFrags t o), phChar o.Flavor ∉ s.data := by
  intro s hs
  unfold findFrags at hs
  rw [lits_append, lits_cons_lit] at hs
  rcases List.mem_append.mp hs with hs | hs
  · rcases List.mem_cons.mp hs with rfl | hs
    · exact not_mem_append_str _ _ _
        (not_mem_append_str _ _ _
          (not_mem_append_str _ _ _
            (phChar_not_mem_token _ "SELECT " ⟨by decide, by decide⟩)
            (joinStrings_not_mem _ ", "
              (phChar_not_mem_token _ ", " ⟨by decide, by decide⟩) o.Fields hf))
          (phChar_not_mem_token _ " FROM " ⟨by decide, by decide⟩))
        ht
    · exact whereFrags_lits_clean o.Flavor _
        (selectConds_lits_clean o.Flavor o.Filters hk) s hs
  · exact forUpdateFrags_lits_clean o.Flavor _ _ hm s hs

theorem findAllFrags_lits_clean (o : FindAllOptions) (t : String)
    (ht : phChar o.Flavor ∉ t.data)
    (hf : ∀ f ∈ o.Fields, phChar o.Flavor ∉ f.data)
    (hk : ∀ p ∈ o.Filters, phChar o.Flavor ∉ p.1.data)
    (ho : phChar o.Flavor ∉ o.OrderBy.data)
    (hm : phChar o.Flavor ∉ o.ForUpdateMode.data) :
    ∀ s ∈ lits (findAllFrags t o), phChar o.Flavor ∉ s.data := by
  intro s hs
  unfold findAllFrags at hs
  rw [lits_append, lits_append, lits_append, lits_cons_lit] at hs
  rcases List.mem_append.mp hs with hs | hs
  swap
  · exact forUpdateFrags_lits_clean o.Flavor _ _ hm s hs
  rcases List.mem_append.mp hs with hs | hs
  swap
  · rw [lits_cons_lit, lits_cons_arg, lits_cons_lit, lits_cons_arg, lits_nil] at hs
    rcases List.mem_cons.mp hs with rfl | hs
    · exact phChar_not_mem_token _ " LIMIT " ⟨by decide, by decide⟩
    · rw [List.mem_singleton] at hs
      subst hs
      exact phChar_not_mem_token _ " OFFSET " ⟨by decide, by decide⟩
  rcases List.mem_append.mp hs with hs | hs
  swap
  · split at hs
    · simp [lits_nil] at hs
    · rw [lits_cons_lit, lits_nil, List.mem_singleton] at hs
      subst hs
      exact not_mem_append_str _ _ _
        (phChar_not_mem_token _ " ORDER BY " ⟨by decide, by decide⟩) ho
  rcases List.mem_cons.mp hs with rfl | hs
  · exact not_mem_append_str _ _ _
      (not_mem_append_str _ _ _
        (not_mem_append_str _ _ _
          (phChar_not_mem_token _ "SELECT " ⟨by decide, by decide⟩)
          (joinStrings_not_mem _ ", "
            (phChar_not_mem_token _ ", " ⟨by decide, by decide⟩) o.Fields hf))
        (phChar_not_mem_token _ " FROM " ⟨by decide, by decide⟩))
      ht
  · exact whereFrags_lits_clean o.Flavor _
      (selectConds_lits_clean o.Flavor o.Filters hk) s hs

theorem mem_insertSorted : ∀ (l : List (String × String × GoValue)) (x y),
    y ∈ insertSorted x l → y = x ∨ y ∈ l := by
  intro l
  induction l with
  | nil =>
    intro x y hy
    rw [show insertSorted x [] = [x] from rfl, List.mem_singleton] at hy
    exact Or.inl hy
  | cons z rest ih =>
    intro x y hy
    unfold insertSorted at hy
    split at hy
    · rcases List.mem_cons.mp hy with rfl | hy
      · exact Or.inl rfl
      · exact Or.inr hy
    · rcases List.mem_cons.mp hy with rfl | hy
      · exact Or.inr (List.mem_cons_self ..)
      · rcases ih x y hy with h | h
        · exact Or.inl h
        · exact Or.inr (List.mem_cons_of_mem _ h)

theorem mem_sortAssigns : ∀ (l : List (String × String × GoValue)) (y),
    y ∈ sortAssigns l → y ∈ l := by
  intro l
  induction l with
  | nil => intro y hy; exact absurd hy (by simp [sortAssigns])
  | cons x rest ih =>
    intro y hy
    unfold sortAssigns at hy
    rcases mem_insertSorted _ x y hy with rfl | hy
    · exact List.mem_cons_self ..
    · exact List.mem_cons_of_mem _ (ih y hy)

theorem assignPairs_mem : ∀ (l : List (String × GoValue)) (i : Nat) (a),
    a ∈ assignPairs l i → (a.2.1, a.2.2) ∈ l := by
  intro l
  induction l with
  | nil => intro i a ha; simp [assignPairs] at ha
  | cons kv rest ih =>
    intro i a ha
    obtain ⟨k, v⟩ := kv
    unfold assignPairs at ha
    rcases List.mem_cons.mp ha with rfl | ha
    · exact List.mem_cons_self ..
    · exact List.mem_cons_of_mem _ (ih (i + 1) a ha)

theorem updateWithOptionsFrags_lits_clean (o : UpdateOptions) (t : String)
    (ht : phChar o.Flavor ∉ t.data)
    (ha : ∀ p ∈ o.Assignments, phChar o.Flavor ∉ p.1.data)
    (hk : ∀ p ∈ o.Filters, phChar o.Flavor ∉ p.1.data) :
    ∀ s ∈ lits (updateWithOptionsFrags t o), phChar o.Flavor ∉ s.data := by
  intro s hs
  unfold updateWithOptionsFrags at hs
  rw [lits_append, lits_cons_lit] at hs
  rcases List.mem_append.mp hs with hs | hs
  · rcases List.mem_cons.mp hs with rfl | hs
    · exact not_mem_append_str _ _ _
        (not_mem_append_str _ _ _
          (phChar_not_mem_token _ "UPDATE " ⟨by decide, by decide⟩) ht)
        (phChar_not_mem_token _ " SET " ⟨by decide, by decide⟩)
    · refine joinFrags_lits_clean o.Flavor ", "
        (phChar_not_mem_token _ ", " ⟨by decide, by decide⟩) _ ?_ s hs
      intro c hc
      rcases List.mem_map.mp hc with ⟨a, hmem, rfl⟩
      have hpair := assignPairs_mem o.Assignments 0 a (mem_sortAssigns _ a hmem)
      exact clean_binary o.Flavor a.2.1 " = " a.2.2
        (ha (a.2.1, a.2.2) hpair) ⟨by decide, by decide⟩
  · exact whereFrags_lits_clean o.Flavor _
      (by rw [updateConds_eq_select]
          exact selectConds_lits_clean o.Flavor o.Filters hk) s hs

theorem deleteWithOptionsFrags_lits_clean (o : DeleteOptions) (t : String)
    (ht : phChar o.Flavor ∉ t.data)
    (hk : ∀ p ∈ o.Filters, phChar o.Flavor ∉ p.1.data) :
    ∀ s ∈ lits (deleteWithOptionsFrags t o), phChar o.Flavor ∉ s.data := by
  intro s hs
  unfold deleteWithOptionsFrags at hs
  rw [lits_cons_lit] at hs
  rcases List.mem_cons.mp hs with rfl | hs
  · exact not_mem_append_str _ _ _
      (phChar_not_mem_token _ "DELETE FROM " ⟨by decide, by decide⟩) ht
  · exact whereFrags_lits_clean o.Flavor _
      (by rw [deleteConds_eq_select]
          exact selectConds_lits_clean o.Flavor o.Filters hk) s hs

theorem insertFrags_lits_clean (fl : Flavor) (t : String)
    (cols : List (String × GoValue))
    (ht : phChar fl ∉ t.data)
    (hc : ∀ p ∈ cols, phChar fl ∉ p.1.data) :
    ∀ s ∈ lits (insertFrags t cols), phChar fl ∉ s.data := by
  intro s hs
  unfold insertFrags at hs
  rw [lits_append, lits_cons_lit] at hs
  rcases List.mem_append.mp hs with hs | hs
  · rcases List.mem_cons.mp hs with rfl | hs
    · refine not_mem_append_str _ _ _
        (not_mem_append_str _ _ _
          (not_mem_append_str _ _ _
            (not_mem_append_str _ _ _
              (phChar_not_mem_token _ "INSERT INTO " ⟨by decide, by decide⟩) ht)
            (phChar_not_mem_token _ " (" ⟨by decide, by decide⟩))
          (joinStrings_not_mem _ ", "
            (phChar_not_mem_token _ ", " ⟨by decide, by decide⟩) _ ?_))
        (phChar_not_mem_token _ ") VALUES (" ⟨by decide, by decide⟩)
      intro f hf
      rcases List.mem_map.mp hf with ⟨p, hp, rfl⟩
      exact hc p hp
    · rw [argList_lits _ s hs]
      exact phChar_not_mem_token _ ", " ⟨by decide, by decide⟩
  · rw [lits_cons_lit, lits_nil, List.mem_singleton] at hs
    subst hs
    exact phChar_not_mem_token _ ")" ⟨by decide, by decide⟩

theorem updateFrags_lits_clean (fl : Flavor) (t : String) (id : GoValue)
    (cols : List (String × GoValue))
    (ht : phChar fl ∉ t.data)
    (hc : ∀ p ∈ cols, phChar fl ∉ p.1.data) :
    ∀ s ∈ lits (updateFrags t id cols), phChar fl ∉ s.data := by
  intro s hs
  unfold updateFrags at hs
  rw [lits_append, lits_cons_lit] at hs
  rcases List.mem_append.mp hs with hs | hs
  · rcases List.mem_cons.mp hs with rfl | hs
    · exact not_mem_append_str _ _ _
        (not_mem_append_str _ _ _
          (phChar_not_mem_token _ "UPDATE " ⟨by decide, by decide⟩) ht)
        (phChar_not_mem_token _ " SET " ⟨by decide, by decide⟩)
    · refine joinFrags_lits_clean fl ", "
        (phChar_not_mem_token _ ", " ⟨by decide, by decide⟩) _ ?_ s hs
      intro c hcmem
      rcases List.mem_map.mp hcmem with ⟨p, hp, rfl⟩
      exact clean_binary fl p.1 " = " p.2 (hc p hp) ⟨by decide, by decide⟩
  · rw [lits_cons_lit] at hs
    rcases List.mem_cons.mp hs with rfl | hs
    · exact phChar_not_mem_token _ " WHERE " ⟨by decide, by decide⟩
    · exact clean_binary fl "id" " = " id
        (phChar_not_mem_token _ "id" ⟨by decide, by decide⟩) ⟨by decide, by decide⟩ s hs

theorem deleteFrags_lits_clean (fl : Flavor) (t : String) (id : GoValue)
    (ht : phChar fl ∉ t.data) :
    ∀ s ∈ lits (deleteFrags t id), phChar fl ∉ s.data := by
  intro s hs
  unfold deleteFrags at hs
  rw [lits_cons_lit] at hs
  rcases List.mem_cons.mp hs with rfl | hs
  · exact not_mem_append_str _ _ _
      (not_mem_append_str _ _ _
        (phChar_not_mem_token _ "DELETE FROM " ⟨by decide, by decide⟩) ht)
      (phChar_not_mem_token _ " WHERE " ⟨by decide, by decide⟩)
  · exact clean_binary fl "id" " = " id
      (phChar_not_mem_token _ "id" ⟨by decide, by decide⟩) ⟨by decide, by decide⟩ s hs

/-! ### Claim theorems -/

/-- C1: for every statement kind (FindQuery, FindAllQuery,
UpdateWithOptionsQuery, DeleteWithOptionsQuery, InsertQuery, UpdateQuery,
DeleteQuery), every dialect flavor, and every filter mapping — in particular
every mapping whose entries have valid value shapes — the compiled output
satisfies: the number of placeholders in the SQL text (occurrences of the
dialect's placeholder character, identifiers being free of it) equals the
length of the returned argument list, and the argument list is exactly the
sequence of values bound to the statement's placeholders in left-to-right
order, so the Nth placeholder corresponds to the Nth argument. -/
theorem c1_placeholder_arg_alignment :
    (∀ (t : String) (o : FindOptions),
      cleanStr o.Flavor t → (∀ f ∈ o.Fields, cleanStr o.Flavor f) →
      (∀ p ∈ o.Filters, cleanStr o.Flavor p.1) → cleanStr o.Flavor o.ForUpdateMode →
      (FindQuery t o).1.data.count (phChar o.Flavor) = (FindQuery t o).2.length ∧
      (FindQuery t o).2 = argVals (findFrags t o)) ∧
    (∀ (t : String) (o : FindAllOptions),
      cleanStr o.Flavor t → (∀ f ∈ o.Fields, cleanStr o.Flavor f) →
      (∀ p ∈ o.Filters, cleanStr o.Flavor p.1) → cleanStr o.Flavor o.OrderBy →
      cleanStr o.Flavor o.ForUpdateMode →
      (FindAllQuery t o).1.data.count (phChar o.Flavor) = (FindAllQuery t o).2.length ∧
      (FindAllQuery t o).2 = argVals (findAllFrags t o)) ∧
    (∀ (t : String) (o : UpdateOptions),
      cleanStr o.Flavor t → (∀ p ∈ o.Assignments, cleanStr o.Flavor p.1) →
      (∀ p ∈ o.Filters, cleanStr o.Flavor p.1) →
      (UpdateWithOptionsQuery t o).1.data.count (phChar o.Flavor) =
        (UpdateWithOptionsQuery t o).2.length ∧
      (UpdateWithOptionsQuery t o).2 = argVals (updateWithOptionsFrags t o)) ∧
    (∀ (t : String) (o : DeleteOptions),
      cleanStr o.Flavor t → (∀ p ∈ o.Filters, cleanStr o.Flavor p.1) →
      (DeleteWithOptionsQuery t o).1.data.count (phChar o.Flavor) =
        (DeleteWithOptionsQuery t o).2.length ∧
      (DeleteWithOptionsQuery t o).2 = argVals (deleteWithOptionsFrags t o)) ∧
    (∀ (fl : Flavor) (t : String) (cols : List (String × GoValue)),
      cleanStr fl t → (∀ p ∈ cols, cleanStr fl p.1) →
      (InsertQuery fl t cols).1.data.count (phChar fl) = (InsertQuery fl t cols).2.length ∧
      (InsertQuery fl t cols).2 = argVals (insertFrags t cols)) ∧
    (∀ (fl : Flavor) (t : String) (id : GoValue) (cols : List (String × GoValue)),
      cleanStr fl t → (∀ p ∈ cols, cleanStr fl p.1) →
      (UpdateQuery fl t id cols).1.data.count (phChar fl) =
        (UpdateQuery fl t id cols).2.length ∧
      (UpdateQuery fl t id cols).2 = argVals (updateFrags t id cols)) ∧
    (∀ (fl : Flavor) (t : String) (id : GoValue),
      cleanStr fl t →
      (DeleteQuery fl t id).1.data.count (phChar fl) = (DeleteQuery fl t id).2.length ∧
      (DeleteQuery fl t id).2 = argVals (deleteFrags t id)) := by
  refine ⟨?_, ?_, ?_, ?_, ?_, ?_, ?_⟩
  · intro t o ht hf hk hm
    unfold FindQuery
    have hsnd := renderFrags_snd o.Flavor (findFrags t o) 1
    refine ⟨?_, hsnd⟩
    rw [count_renderFrags o.Flavor (findFrags t o) 1
        (findFrags_lits_clean o t ht hf hk hm), hsnd]
    rfl
  · intro t o ht hf hk ho hm
    unfold FindAllQuery
    have hsnd := renderFrags_snd o.Flavor (findAllFrags t o) 1
    refine ⟨?_, hsnd⟩
    rw [count_renderFrags o.Flavor (findAllFrags t o) 1
        (findAllFrags_lits_clean o t ht hf hk ho hm), hsnd]
    rfl
  · intro t o ht ha hk
    unfold UpdateWithOptionsQuery
    have hsnd := renderFrags_snd o.Flavor (updateWithOptionsFrags t o) 1
    refine ⟨?_, hsnd⟩
    rw [count_renderFrags o.Flavor (updateWithOptionsFrags t o) 1
        (updateWithOptionsFrags_lits_clean o t ht ha hk), hsnd]
    rfl
  · intro t o ht hk
    unfold DeleteWithOptionsQuery
    have hsnd := renderFrags_snd o.Flavor (deleteWithOptionsFrags t o) 1
    refine ⟨?_, hsnd⟩
    rw [count_renderFrags o.Flavor (deleteWithOptionsFrags t o) 1
        (deleteWithOptionsFrags_lits_clean o t ht hk), hsnd]
    rfl
  · intro fl t cols ht hc
    unfold InsertQuery
    have hsnd := renderFrags_snd fl (insertFrags t cols) 1
    refine ⟨?_, hsnd⟩
    rw [count_renderFrags fl (insertFrags t cols) 1
        (insertFrags_lits_clean fl t cols ht hc), hsnd]
    rfl
  · intro fl t id cols ht hc
    unfold UpdateQuery
    have hsnd := renderFrags_snd fl (updateFrags t id cols) 1
    refine ⟨?_, hsnd⟩
    rw [count_renderFrags fl (updateFrags t id cols) 1
        (updateFrags_lits_clean fl t id cols ht hc), hsnd]
    rfl
  · intro fl t id ht
    unfold DeleteQuery
    have hsnd := renderFrags_snd fl (deleteFrags t id) 1
    refine ⟨?_, hsnd⟩
    rw [count_renderFrags fl (deleteFrags t id) 1
        (deleteFrags_lits_clean fl t id ht), hsnd]
    rfl

/-- Witness for C1: a PostgreSQL FindAllQuery with an equality filter, an
`in` filter, pagination and locking has as many `$N` placeholders in its
text as arguments, and its arguments are the fragment values in order. -/
theorem c1_placeholder_arg_alignment_witness :
    (FindAllQuery "jobs"
        ⟨Flavor.postgresql, ["*"], [("status", GoValue.str "p"), ("id.in", GoValue.str "1,2")],
          5, 0, "id asc", true, "SKIP LOCKED"⟩).1.data.count (phChar Flavor.postgresql) =
      (FindAllQuery "jobs"
        ⟨Flavor.postgresql, ["*"], [("status", GoValue.str "p"), ("id.in", GoValue.str "1,2")],
          5, 0, "id asc", true, "SKIP LOCKED"⟩).2.length :=
  (c1_placeholder_arg_alignment.2.1 "jobs"
    ⟨Flavor.postgresql, ["*"], [("status", GoValue.str "p"), ("id.in", GoValue.str "1,2")],
      5, 0, "id asc", true, "SKIP LOCKED"⟩
    (by decide) (by decide) (by decide) (by decide) (by decide)).1

theorem condIn_numArgs (f : String) (vs : List GoValue) :
    numArgs (condIn f vs) = vs.length := by
  show numArgs ((Frag.lit (f ++ " IN (") :: argList vs) ++ [Frag.lit ")"]) = vs.length
  rw [numArgs_append, numArgs_cons_lit, argList_numArgs]
  rfl

theorem condIn_argVals (f : String) (vs : List GoValue) :
    argVals (condIn f vs) = vs := by
  show argVals ((Frag.lit (f ++ " IN (") :: argList vs) ++ [Frag.lit ")"]) = vs
  rw [argVals_append, argVals_cons_lit, argList_argVals]
  simp [argVals]

theorem condNotIn_numArgs (f : String) (vs : List GoValue) :
    numArgs (condNotIn f vs) = vs.length := by
  show numArgs ((Frag.lit (f ++ " NOT IN (") :: argList vs) ++ [Frag.lit ")"]) = vs.length
  rw [numArgs_append, numArgs_cons_lit, argList_numArgs]
  rfl

theorem condNotIn_argVals (f : String) (vs : List GoValue) :
    argVals (condNotIn f vs) = vs := by
  show argVals ((Frag.lit (f ++ " NOT IN (") :: argList vs) ++ [Frag.lit ")"]) = vs
  rw [argVals_append, argVals_cons_lit, argList_argVals]
  simp [argVals]

/-- C5: a filter entry whose key contains no dot separator compiles, for a
`nil` value, to `key IS NULL` with no placeholder and no argument, and for a
non-nil value to `key = value` with exactly one placeholder and one
argument; the PostgreSQL instances from the repository's tests are
reproduced exactly. -/
theorem c5_bare_key_filter :
    (∀ (k : String) (v : GoValue), goContains k '.' = false → v = .nil →
      parseSelectFilter k v = some (condIsNull k) ∧
      parseUpdateFilter k v = some (condIsNull k) ∧
      parseDeleteFilter k v = some (condIsNull k) ∧
      numArgs (condIsNull k) = 0 ∧ argVals (condIsNull k) = []) ∧
    (∀ (k : String) (v : GoValue), goContains k '.' = false → v ≠ .nil →
      parseSelectFilter k v = some (condEqual k v) ∧
      parseUpdateFilter k v = some (condEqual k v) ∧
      parseDeleteFilter k v = some (condEqual k v) ∧
      numArgs (condEqual k v) = 1 ∧ argVals (condEqual k v) = [v]) ∧
    FindQuery "test_table" ⟨.postgresql, ["*"], [("id", .nil)], false, ""⟩ =
      ("SELECT * FROM test_table WHERE id IS NULL", []) ∧
    FindQuery "test_table" ⟨.postgresql, ["*"], [("id", .int 1)], false, ""⟩ =
      ("SELECT * FROM test_table WHERE id = $1", [.int 1]) := by
  refine ⟨?_, ?_, by decide, by decide⟩
  · intro k v h hv
    subst hv
    rw [parseUpdateFilter_eq_select, parseDeleteFilter_eq_select]
    refine ⟨?_, ?_, ?_, rfl, rfl⟩ <;> simp [parseSelectFilter, h]
  · intro k v h hv
    rw [parseUpdateFilter_eq_select, parseDeleteFilter_eq_select]
    refine ⟨?_, ?_, ?_, rfl, rfl⟩ <;>
      cases v <;> simp [parseSelectFilter, h] <;> exact absurd rfl hv

/-- Witness for C5: the bare key `id` with value 1 compiles to an equality
condition with one argument. -/
theorem c5_bare_key_filter_witness :
    parseSelectFilter "id" (GoValue.int 1) = some (condEqual "id" (GoValue.int 1)) :=
  (c5_bare_key_filter.2.1 "id" (GoValue.int 1) (by decide) (by decide)).1

/-- C4: a filter entry with operator suffix `null` and a boolean value emits
no placeholder and no argument; `true` gives IS NULL, `false` gives
IS NOT NULL, and in both cases the predicate is built against the full
original key (including the `.null` suffix), as the test instances
`id.null IS NULL` and `id.null IS NOT NULL` show. -/
theorem c4_null_operator_full_key :
    (∀ (k pk : String) (rest : List String) (b : Bool),
      goContains k '.' = true → goSplit '.' k = pk :: "null" :: rest →
      parseSelectFilter k (.bool b) =
        some (if b then condIsNull k else condIsNotNull k) ∧
      parseUpdateFilter k (.bool b) =
        some (if b then condIsNull k else condIsNotNull k) ∧
      parseDeleteFilter k (.bool b) =
        some (if b then condIsNull k else condIsNotNull k) ∧
      numArgs (if b then condIsNull k else condIsNotNull k) = 0 ∧
      argVals (if b then condIsNull k else condIsNotNull k) = []) ∧
    FindQuery "test_table" ⟨.postgresql, ["*"], [("id.null", .bool true)], false, ""⟩ =
      ("SELECT * FROM test_table WHERE id.null IS NULL", []) ∧
    FindQuery "test_table" ⟨.postgresql, ["*"], [("id.null", .bool false)], false, ""⟩ =
      ("SELECT * FROM test_table WHERE id.null IS NOT NULL", []) := by
  refine ⟨?_, by decide, by decide⟩
  intro k pk rest b hc hsplit
  rw [parseUpdateFilter_eq_select, parseDeleteFilter_eq_select]
  cases b <;>
    refine ⟨?_, ?_, ?_, rfl, rfl⟩ <;>
    simp [parseSelectFilter, hc, hsplit]

/-- Witness for C4: `id.null` with `true` compiles to IS NULL on the full
key `id.null`. -/
theorem c4_null_operator_full_key_witness :
    parseSelectFilter "id.null" (GoValue.bool true) = some (condIsNull "id.null") :=
  ((c4_null_operator_full_key.1 "id.null" "id" [] true (by decide) (by decide)).1.trans
    (by rfl))

/-- C3: an `in` (resp. `notin`) filter entry with string value splits the
value on commas into tokens; the compiled condition is an IN (resp. NOT IN)
clause with one placeholder and one argument per token, the arguments being
the tokens in original order; for value "1,2,3" that is exactly 3
placeholders and the arguments "1", "2", "3". -/
theorem c3_in_notin_token_alignment :
    (∀ (k pk : String) (rest : List String) (s : String),
      goContains k '.' = true → goSplit '.' k = pk :: "in" :: rest →
      parseSelectFilter k (.str s) = some (condIn pk (parseIn s)) ∧
      numArgs (condIn pk (parseIn s)) = (goSplit ',' s).length ∧
      argVals (condIn pk (parseIn s)) = (goSplit ',' s).map .str) ∧
    (∀ (k pk : String) (rest : List String) (s : String),
      goContains k '.' = true → goSplit '.' k = pk :: "notin" :: rest →
      parseSelectFilter k (.str s) = some (condNotIn pk (parseIn s)) ∧
      numArgs (condNotIn pk (parseIn s)) = (goSplit ',' s).length ∧
      argVals (condNotIn pk (parseIn s)) = (goSplit ',' s).map .str) ∧
    FindQuery "test_table" ⟨.postgresql, ["*"], [("id.in", .str "1,2,3")], false, ""⟩ =
      ("SELECT * FROM test_table WHERE id IN ($1, $2, $3)",
        [.str "1", .str "2", .str "3"]) ∧
    FindQuery "test_table" ⟨.postgresql, ["*"], [("id.notin", .str "1,2,3")], false, ""⟩ =
      ("SELECT * FROM test_table WHERE id NOT IN ($1, $2, $3)",
        [.str "1", .str "2", .str "3"]) ∧
    (FindQuery "test_table"
        ⟨.postgresql, ["*"], [("id.in", .str "1,2,3")], false, ""⟩).1.data.count '$' = 3 := by
  refine ⟨?_, ?_, by decide, by decide, by decide⟩
  · intro k pk rest s hc hsplit
    refine ⟨by simp [parseSelectFilter, hc, hsplit], ?_, ?_⟩
    · rw [condIn_numArgs]
      simp [parseIn]
    · rw [condIn_argVals]
      rfl
  · intro k pk rest s hc hsplit
    refine ⟨by simp [parseSelectFilter, hc, hsplit], ?_, ?_⟩
    · rw [condNotIn_numArgs]
      simp [parseIn]
    · rw [condNotIn_argVals]
      rfl

/-- Witness for C3: the key `id.in` with value "1,2,3" compiles to an IN
condition with 3 placeholders. -/
theorem c3_in_notin_token_alignment_witness :
    numArgs (condIn "id" (parseIn "1,2,3")) = (goSplit ',' "1,2,3").length :=
  ((c3_in_notin_token_alignment.1 "id.in" "id" [] "1,2,3") (by decide) (by decide)).2.1

/-- C10: splitting a string on commas never yields an empty token list, so
an `in`/`notin` filter with a string value always emits at least one
placeholder and argument: the empty string yields exactly one
(empty-string) argument, empty tokens are kept, and in general the token
count is the number of commas plus one. -/
theorem c10_parsein_never_empty :
    (∀ s : String, parseIn s ≠ []) ∧
    parseIn "" = [.str ""] ∧
    (∀ s : String, (parseIn s).length = s.data.count ',' + 1) ∧
    parseIn "a,,b," = [.str "a", .str "", .str "b", .str ""] ∧
    (∀ (k pk : String) (rest : List String) (s : String),
      goContains k '.' = true → goSplit '.' k = pk :: "in" :: rest →
      parseSelectFilter k (.str s) = some (condIn pk (parseIn s)) ∧
      1 ≤ numArgs (condIn pk (parseIn s))) := by
  refine ⟨?_, by decide, ?_, by decide, ?_⟩
  · intro s h
    exact goSplit_ne_nil ',' s (List.map_eq_nil_iff.mp h)
  · intro s
    show ((goSplit ',' s).map GoValue.str).length = s.data.count ',' + 1
    rw [List.length_map, goSplit_length, List.count_eq_countP]
  · intro k pk rest s hc hsplit
    refine ⟨by simp [parseSelectFilter, hc, hsplit], ?_⟩
    rw [condIn_numArgs]
    show 1 ≤ ((goSplit ',' s).map GoValue.str).length
    rw [List.length_map, goSplit_length]
    omega

/-- Witness for C10: the key `id.in` with the empty-string value still
compiles an IN condition with at least one placeholder. -/
theorem c10_parsein_never_empty_witness :
    parseSelectFilter "id.in" (GoValue.str "") = some (condIn "id" (parseIn "")) ∧
      1 ≤ numArgs (condIn "id" (parseIn "")) :=
  c10_parsein_never_empty.2.2.2.2 "id.in" "id" [] "" (by decide) (by decide)

/-- C6 counterexample: the claim says any further dot-separated segments are
ignored, but for the `null` operator the predicate embeds the full key, so
`a.null.x` and `a.null` (same first two segments) compile different
conditions and different SQL. -/
theorem c6_counterexample :
    goContains "a.null.x" '.' = true ∧
    goSplit '.' "a.null.x" = ["a", "null", "x"] ∧
    goSplit '.' "a.null" = ["a", "null"] ∧
    parseSelectFilter "a.null.x" (.bool true) ≠ parseSelectFilter "a.null" (.bool true) ∧
    FindQuery "t" ⟨.postgresql, ["*"], [("a.null.x", .bool true)], false, ""⟩ ≠
      FindQuery "t" ⟨.postgresql, ["*"], [("a.null", .bool true)], false, ""⟩ := by
  decide

/-- C6 amended: for a dotted key only the first two segments determine the
base field and the operator, and for every operator other than `null` any
further segments are ignored, not rejected (`a.gt.x` compiles exactly as
`a.gt`); for the `null` operator the operator selection still uses only the
second segment, but the emitted predicate embeds the full original key, so
further segments surface in the SQL text. -/
theorem c6_first_two_segments :
    (∀ (k1 k2 a c : String) (r1 r2 : List String) (v : GoValue),
      goContains k1 '.' = true → goContains k2 '.' = true →
      goSplit '.' k1 = a :: c :: r1 → goSplit '.' k2 = a :: c :: r2 →
      c ≠ "null" →
      parseSelectFilter k1 v = parseSelectFilter k2 v) ∧
    (∀ (k a : String) (r : List String) (b : Bool),
      goContains k '.' = true → goSplit '.' k = a :: "null" :: r →
      parseSelectFilter k (.bool b) =
        some (if b then condIsNull k else condIsNotNull k)) ∧
    (∀ v : GoValue, parseSelectFilter "a.gt.x" v = parseSelectFilter "a.gt" v) := by
  have h1 : ∀ (k1 k2 a c : String) (r1 r2 : List String) (v : GoValue),
      goContains k1 '.' = true → goContains k2 '.' = true →
      goSplit '.' k1 = a :: c :: r1 → goSplit '.' k2 = a :: c :: r2 →
      c ≠ "null" →
      parseSelectFilter k1 v = parseSelectFilter k2 v := by
    intro k1 k2 a c r1 r2 v hc1 hc2 hs1 hs2 hnull
    unfold parseSelectFilter
    rw [hc1, hc2, hs1, hs2]
    simp only [if_true]
    split
    all_goals first
      | rfl
      | exact absurd rfl hnull
  refine ⟨h1, ?_, fun v => h1 "a.gt.x" "a.gt" "a" "gt" ["x"] [] v
    (by decide) (by decide) (by decide) (by decide) (by decide)⟩
  intro k a r b hc hsplit
  cases b <;> simp [parseSelectFilter, hc, hsplit]

/-- Witness for C6 (amended): `a.gt.x` and `a.gt` compile the same
condition at value 5. -/
theorem c6_first_two_segments_witness :
    parseSelectFilter "a.gt.x" (GoValue.int 5) = parseSelectFilter "a.gt" (GoValue.int 5) :=
  c6_first_two_segments.2.2 (GoValue.int 5)


theorem parseSelectFilter_malformed_none (k : String) (v : GoValue)
    (h : MalformedEntry k v) : parseSelectFilter k v = none := by
  obtain ⟨hc, hrest⟩ := h
  unfold parseSelectFilter
  rw [hc]
  simp only [if_true]
  rcases hsp : goSplit '.' k with _ | ⟨a, rest2⟩
  · rw [hsp] at hrest
  rcases rest2 with _ | ⟨op, rest⟩
  · rw [hsp] at hrest
  rw [hsp] at hrest
  have hrest2 : ((op = "in" ∨ op = "notin") ∧ v.isStr = false) ∨
      (op = "null" ∧ v.isBool = false) ∨ op ∉ recognizedOps := hrest
  rcases hrest2 with ⟨hop, hstr⟩ | ⟨hop, hbool⟩ | hmem
  · rcases hop with rfl | rfl <;> (cases v <;> simp_all [GoValue.isStr])
  · subst hop
    cases v <;> simp_all [GoValue.isBool]
  · split
    · next pk cmp tail heq =>
        injection heq with h1 h2
        injection h2 with h2 h3
        subst h1
        subst h2
        split
        all_goals first
          | rfl
          | exact absurd (by decide) hmem
    · next hno => exact ((hno a op rest rfl)).elim

theorem selectConds_skip (k : String) (v : GoValue)
    (h : parseSelectFilter k v = none) :
    ∀ (l1 l2 : List (String × GoValue)),
      selectConds (l1 ++ (k, v) :: l2) = selectConds (l1 ++ l2) := by
  intro l1
  induction l1 with
  | nil =>
    intro l2
    have e : selectConds ((k, v) :: l2) =
        match parseSelectFilter k v with
        | some c => c :: selectConds l2
        | none => selectConds l2 := rfl
    rw [List.nil_append, List.nil_append, e, h]
  | cons p rest ih =>
    intro l2
    obtain ⟨a, b⟩ := p
    have e1 : selectConds ((a, b) :: (rest ++ (k, v) :: l2)) =
        match parseSelectFilter a b with
        | some c => c :: selectConds (rest ++ (k, v) :: l2)
        | none => selectConds (rest ++ (k, v) :: l2) := rfl
    have e2 : selectConds ((a, b) :: (rest ++ l2)) =
        match parseSelectFilter a b with
        | some c => c :: selectConds (rest ++ l2)
        | none => selectConds (rest ++ l2) := rfl
    rw [List.cons_append, List.cons_append, e1, e2, ih l2]

/-- C2: a malformed filter entry — `in`/`notin` with a non-string value,
`null` with a non-boolean value, or an unrecognized operator suffix —
produces no predicate, no placeholder and no argument, and raises no error:
for every statement kind that consumes filters, the compiled SQL and
argument list are identical to those of the same options with the entry
removed. -/
theorem c2_malformed_entry_skipped :
    ∀ (k : String) (v : GoValue), MalformedEntry k v →
      parseSelectFilter k v = none ∧
      (∀ (t : String) (fl : Flavor) (fields : List String)
         (l1 l2 : List (String × GoValue)) (fu : Bool) (fum : String),
        FindQuery t ⟨fl, fields, l1 ++ (k, v) :: l2, fu, fum⟩ =
          FindQuery t ⟨fl, fields, l1 ++ l2, fu, fum⟩) ∧
      (∀ (t : String) (fl : Flavor) (fields : List String)
         (l1 l2 : List (String × GoValue)) (lim off : Int) (ob : String)
         (fu : Bool) (fum : String),
        FindAllQuery t ⟨fl, fields, l1 ++ (k, v) :: l2, lim, off, ob, fu, fum⟩ =
          FindAllQuery t ⟨fl, fields, l1 ++ l2, lim, off, ob, fu, fum⟩) ∧
      (∀ (t : String) (fl : Flavor) (assigns l1 l2 : List (String × GoValue)),
        UpdateWithOptionsQuery t ⟨fl, assigns, l1 ++ (k, v) :: l2⟩ =
          UpdateWithOptionsQuery t ⟨fl, assigns, l1 ++ l2⟩) ∧
      (∀ (t : String) (fl : Flavor) (l1 l2 : List (String × GoValue)),
        DeleteWithOptionsQuery t ⟨fl, l1 ++ (k, v) :: l2⟩ =
          DeleteWithOptionsQuery t ⟨fl, l1 ++ l2⟩) := by
  intro k v h
  have hnone := parseSelectFilter_malformed_none k v h
  refine ⟨hnone, ?_, ?_, ?_, ?_⟩
  · intro t fl fields l1 l2 fu fum
    unfold FindQuery findFrags
    rw [selectConds_skip k v hnone l1 l2]
  · intro t fl fields l1 l2 lim off ob fu fum
    unfold FindAllQuery findAllFrags
    rw [selectConds_skip k v hnone l1 l2]
  · intro t fl assigns l1 l2
    unfold UpdateWithOptionsQuery updateWithOptionsFrags
    rw [updateConds_eq_select, selectConds_skip k v hnone l1 l2]
  · intro t fl l1 l2
    unfold DeleteWithOptionsQuery deleteWithOptionsFrags
    rw [deleteConds_eq_select, selectConds_skip k v hnone l1 l2]

/-- Witness for C2: the malformed entry `id.in` with integer value 1 leaves
a DELETE statement unchanged. -/
theorem c2_malformed_entry_skipped_witness :
    DeleteWithOptionsQuery "t"
        ⟨Flavor.postgresql, [("a", GoValue.int 2), ("id.in", GoValue.int 1)]⟩ =
      DeleteWithOptionsQuery "t" ⟨Flavor.postgresql, [("a", GoValue.int 2)]⟩ :=
  (c2_malformed_entry_skipped "id.in" (GoValue.int 1)
      ⟨by decide, by
        rw [show goSplit '.' "id.in" = ["id", "in"] from by decide]
        exact Or.inl ⟨Or.inl rfl, rfl⟩⟩).2.2.2.2
    "t" Flavor.postgresql [("a", GoValue.int 2)] []

/-- C7: FindAllQuery emits both a LIMIT and an OFFSET clause for every
FindAllOptions (parameterized, hence present even when limit and offset are
zero), and the repository's pinned PostgreSQL example compiles exactly as
claimed. -/
theorem c7_findall_always_limit_offset :
    (∀ (t : String) (o : FindAllOptions), ∃ pre mid post : String,
      (FindAllQuery t o).1 = pre ++ (" LIMIT " ++ (mid ++ (" OFFSET " ++ post)))) ∧
    FindAllQuery "test_table"
        ⟨.postgresql, ["*"], [("id", .int 1)], 50, 10, "id asc", true, "SKIP LOCKED"⟩ =
      ("SELECT * FROM test_table WHERE id = $1 ORDER BY id asc LIMIT $2 OFFSET $3 FOR UPDATE SKIP LOCKED",
        [.int 1, .int 50, .int 10]) ∧
    FindAllQuery "products" ⟨.postgresql, ["*"], [], 20, 0, "", false, ""⟩ =
      ("SELECT * FROM products LIMIT $1 OFFSET $2", [.int 20, .int 0]) := by
  refine ⟨?_, by decide, by decide⟩
  intro t o
  obtain ⟨A, hA⟩ : ∃ A, findAllFrags t o =
      (A ++ [Frag.lit " LIMIT ", Frag.arg (.int o.Limit),
             Frag.lit " OFFSET ", Frag.arg (.int o.Offset)])
        ++ forUpdateFrags o.ForUpdate o.ForUpdateMode := ⟨_, rfl⟩
  refine ⟨(renderFrags o.Flavor A 1).1, placeholder o.Flavor (1 + numArgs A),
    placeholder o.Flavor (1 + numArgs A + 1) ++
      (renderFrags o.Flavor (forUpdateFrags o.ForUpdate o.ForUpdateMode)
        (1 + (numArgs A + numArgs [Frag.lit " LIMIT ", Frag.arg (GoValue.int o.Limit),
          Frag.lit " OFFSET ", Frag.arg (GoValue.int o.Offset)]))).1, ?_⟩
  show (renderFrags o.Flavor (findAllFrags t o) 1).1 = _
  rw [hA, renderFrags_fst_append, renderFrags_fst_append]
  simp only [renderFrags, numArgs_append, String.append_assoc, String.append_empty]

theorem lexLe_total : ∀ (a b : List Char), lexLe a b = true ∨ lexLe b a = true := by
  intro a
  induction a with
  | nil => intro b; exact Or.inl rfl
  | cons x xs ih =>
    intro b
    cases b with
    | nil => exact Or.inr rfl
    | cons y ys =>
      by_cases h1 : x.toNat < y.toNat
      · exact Or.inl (by simp [lexLe, h1])
      · by_cases h2 : y.toNat < x.toNat
        · exact Or.inr (by simp [lexLe, h2])
        · rcases ih ys with h | h
          · exact Or.inl (by simp [lexLe, h1, h2, h])
          · exact Or.inr (by simp [lexLe, h1, h2, h])

theorem lexLe_trans : ∀ (a b c : List Char),
    lexLe a b = true → lexLe b c = true → lexLe a c = true := by
  intro a
  induction a with
  | nil => intro b c _ _; rfl
  | cons x xs ih =>
    intro b c hab hbc
    cases b with
    | nil => simp [lexLe] at hab
    | cons y ys =>
      cases c with
      | nil => simp [lexLe] at hbc
      | cons z zs =>
        simp only [lexLe] at hab hbc ⊢
        split at hab
        · next hxy =>
          split
          · rfl
          · next hzx =>
            split at hbc
            · next hyz => omega
            · next hyz =>
              split at hbc
              · exact absurd hbc (by simp)
              · next hzy => omega
        · next hxy =>
          split at hab
          · exact absurd hab (by simp)
          · next hyx =>
            split at hbc
            · next hyz =>
              split
              · rfl
              · next hzx => omega
            · next hyz =>
              split at hbc
              · exact absurd hbc (by simp)
              · next hzy =>
                split
                · rfl
                · next hzx =>
                  have hxz : ¬ x.toNat < z.toNat := by omega
                  have hzx2 : ¬ z.toNat < x.toNat := by omega
                  simp only [if_neg hxz, if_neg hzx2] at *
                  exact ih ys zs hab hbc

theorem pairwise_insertSorted :
    ∀ (l : List (String × String × GoValue)) (x : String × String × GoValue),
      l.Pairwise (fun p q => lexLe p.1.data q.1.data = true) →
      (insertSorted x l).Pairwise (fun p q => lexLe p.1.data q.1.data = true) := by
  intro l
  induction l with
  | nil => intro x _; simp [insertSorted]
  | cons y rest ih =>
    intro x hp
    rw [List.pairwise_cons] at hp
    obtain ⟨hy, hrest⟩ := hp
    unfold insertSorted
    split
    · next hxy =>
      rw [List.pairwise_cons]
      refine ⟨?_, List.pairwise_cons.mpr ⟨hy, hrest⟩⟩
      intro q hq
      rcases List.mem_cons.mp hq with rfl | hq
      · exact hxy
      · exact lexLe_trans _ _ _ hxy (hy q hq)
    · next hxy =>
      have hyx : lexLe y.1.data x.1.data = true := by
        rcases lexLe_total x.1.data y.1.data with h | h
        · exact absurd h hxy
        · exact h
      rw [List.pairwise_cons]
      constructor
      · intro q hq
        rcases mem_insertSorted rest x q hq with rfl | hq
        · exact hyx
        · exact hy q hq
      · exact ih x hrest

theorem sortAssigns_sorted : ∀ (l : List (String × String × GoValue)),
    (sortAssigns l).Pairwise (fun p q => lexLe p.1.data q.1.data = true) := by
  intro l
  induction l with
  | nil => simp [sortAssigns]
  | cons x rest ih => exact pairwise_insertSorted _ x ih

theorem insertSorted_perm :
    ∀ (l : List (String × String × GoValue)) (x : String × String × GoValue),
      (insertSorted x l).Perm (x :: l) := by
  intro l
  induction l with
  | nil => intro x; exact List.Perm.refl _
  | cons y rest ih =>
    intro x
    unfold insertSorted
    split
    · exact List.Perm.refl _
    · exact ((ih x).cons y).trans (List.Perm.swap x y rest)

theorem sortAssigns_perm : ∀ (l : List (String × String × GoValue)),
    (sortAssigns l).Perm l := by
  intro l
  induction l with
  | nil => exact List.Perm.refl _
  | cons x rest ih =>
    exact (insertSorted_perm (sortAssigns rest) x).trans (ih.cons x)

/-- C8: UpdateWithOptionsQuery builds its SET list sorted by the textual
rendering of each assignment (the sorted rendering list is ordered and is a
permutation of the iteration's renderings), so the output is deterministic
despite the assignment mapping's unordered iteration: both iteration orders
of the mapping of the pinned example compile to exactly the claimed SQL and
argument list. -/
theorem c8_update_set_list_sorted :
    (∀ (o : UpdateOptions),
      (sortAssigns (assignPairs o.Assignments 0)).Pairwise
        (fun p q => lexLe p.1.data q.1.data = true) ∧
      (sortAssigns (assignPairs o.Assignments 0)).Perm
        (assignPairs o.Assignments 0)) ∧
    UpdateWithOptionsQuery "players"
        ⟨.postgresql, [("name", .str "X"), ("age", .int 43)], [("id", .int 1)]⟩ =
      ("UPDATE players SET age = $1, name = $2 WHERE id = $3",
        [.int 43, .str "X", .int 1]) ∧
    UpdateWithOptionsQuery "players"
        ⟨.postgresql, [("age", .int 43), ("name", .str "X")], [("id", .int 1)]⟩ =
      ("UPDATE players SET age = $1, name = $2 WHERE id = $3",
        [.int 43, .str "X", .int 1]) := by
  exact ⟨fun o => ⟨sortAssigns_sorted _, sortAssigns_perm _⟩, by decide, by decide⟩

theorem mapGet_mapSet : ∀ (m : OptionsModel.GoMap) (k : String) (v : GoValue),
    OptionsModel.mapGet (OptionsModel.mapSet m k v) k = some v := by
  intro m k v
  induction m with
  | nil => simp [OptionsModel.mapSet, OptionsModel.mapGet]
  | cons p rest ih =>
    obtain ⟨k', v'⟩ := p
    unfold OptionsModel.mapSet
    split
    · simp [OptionsModel.mapGet]
    · next hne => simpa [OptionsModel.mapGet, hne] using ih

/-- C9: every `With*` mutator returns a new options record that is a
shallow copy of the top-level struct sharing the same underlying
filter/assignment map reference as the original: after `WithFilter` (or
`WithAssignment`) the added key/value is visible through the ORIGINAL
record's map reference, while the scalar fields of the copy equal the
original's (and a scalar mutator changes only its own field, never the
shared map reference). -/
theorem c9_with_mutators_share_map :
    (∀ (f : OptionsModel.FindOptions) (k : String) (v : GoValue)
       (h : OptionsModel.Heap),
      (f.WithFilter k v h).1.Filters = f.Filters ∧
      OptionsModel.mapGet ((f.WithFilter k v h).2 f.Filters) k = some v ∧
      (f.WithFilter k v h).1.Flavor = f.Flavor ∧
      (f.WithFilter k v h).1.Fields = f.Fields ∧
      (f.WithFilter k v h).1.ForUpdate = f.ForUpdate ∧
      (f.WithFilter k v h).1.ForUpdateMode = f.ForUpdateMode) ∧
    (∀ (f : OptionsModel.FindAllOptions) (k : String) (v : GoValue)
       (h : OptionsModel.Heap),
      (f.WithFilter k v h).1.Filters = f.Filters ∧
      OptionsModel.mapGet ((f.WithFilter k v h).2 f.Filters) k = some v ∧
      (f.WithFilter k v h).1.Flavor = f.Flavor ∧
      (f.WithFilter k v h).1.Fields = f.Fields ∧
      (f.WithFilter k v h).1.Limit = f.Limit ∧
      (f.WithFilter k v h).1.Offset = f.Offset ∧
      (f.WithFilter k v h).1.OrderBy = f.OrderBy ∧
      (f.WithFilter k v h).1.ForUpdate = f.ForUpdate ∧
      (f.WithFilter k v h).1.ForUpdateMode = f.ForUpdateMode) ∧
    (∀ (u : OptionsModel.UpdateOptions) (k : String) (v : GoValue)
       (h : OptionsModel.Heap),
      (u.WithAssignment k v h).1.Assignments = u.Assignments ∧
      (u.WithAssignment k v h).1.Filters = u.Filters ∧
      OptionsModel.mapGet ((u.WithAssignment k v h).2 u.Assignments) k = some v ∧
      (u.WithAssignment k v h).1.Flavor = u.Flavor ∧
      (u.WithFilter k v h).1.Filters = u.Filters ∧
      OptionsModel.mapGet ((u.WithFilter k v h).2 u.Filters) k = some v) ∧
    (∀ (d : OptionsModel.DeleteOptions) (k : String) (v : GoValue)
       (h : OptionsModel.Heap),
      (d.WithFilter k v h).1.Filters = d.Filters ∧
      OptionsModel.mapGet ((d.WithFilter k v h).2 d.Filters) k = some v ∧
      (d.WithFilter k v h).1.Flavor = d.Flavor) ∧
    (∀ (f : OptionsModel.FindOptions) (fields : List String),
      (f.WithFields fields).Filters = f.Filters ∧
      (f.WithFields fields).Fields = fields ∧
      (f.WithFields fields).Flavor = f.Flavor ∧
      (f.WithFields fields).ForUpdate = f.ForUpdate ∧
      (f.WithFields fields).ForUpdateMode = f.ForUpdateMode) ∧
    (∀ (f : OptionsModel.FindOptions) (mode : String),
      (f.WithForUpdate mode).Filters = f.Filters ∧
      (f.WithForUpdate mode).Fields = f.Fields ∧
      (f.WithForUpdate mode).Flavor = f.Flavor ∧
      (f.WithForUpdate mode).ForUpdate = true ∧
      (f.WithForUpdate mode).ForUpdateMode = mode) ∧
    (∀ (f : OptionsModel.FindAllOptions) (fields : List String),
      (f.WithFields fields).Filters = f.Filters ∧
      (f.WithFields fields).Fields = fields ∧
      (f.WithFields fields).Flavor = f.Flavor) ∧
    (∀ (f : OptionsModel.FindAllOptions) (n : Int),
      (f.WithLimit n).Filters = f.Filters ∧
      (f.WithLimit n).Limit = n ∧
      (f.WithLimit n).Offset = f.Offset ∧
      (f.WithLimit n).OrderBy = f.OrderBy ∧
      (f.WithLimit n).Fields = f.Fields ∧
      (f.WithLimit n).Flavor = f.Flavor ∧
      (f.WithLimit n).ForUpdate = f.ForUpdate ∧
      (f.WithLimit n).ForUpdateMode = f.ForUpdateMode) ∧
    (∀ (f : OptionsModel.FindAllOptions) (n : Int),
      (f.WithOffset n).Filters = f.Filters ∧
      (f.WithOffset n).Offset = n ∧
      (f.WithOffset n).Limit = f.Limit) ∧
    (∀ (f : OptionsModel.FindAllOptions) (ob : String),
      (f.WithOrderBy ob).Filters = f.Filters ∧
      (f.WithOrderBy ob).OrderBy = ob ∧
      (f.WithOrderBy ob).Limit = f.Limit) ∧
    (∀ (f : OptionsModel.FindAllOptions) (mode : String),
      (f.WithForUpdate mode).Filters = f.Filters ∧
      (f.WithForUpdate mode).ForUpdate = true ∧
      (f.WithForUpdate mode).ForUpdateMode = mode) := by
  refine ⟨?_, ?_, ?_, ?_, ?_, ?_, ?_, ?_, ?_, ?_, ?_⟩
  · intro f k v h
    refine ⟨rfl, ?_, rfl, rfl, rfl, rfl⟩
    show OptionsModel.mapGet (OptionsModel.heapSet h f.Filters k v f.Filters) k = some v
    unfold OptionsModel.heapSet
    rw [if_pos rfl]
    exact mapGet_mapSet _ k v
  · intro f k v h
    refine ⟨rfl, ?_, rfl, rfl, rfl, rfl, rfl, rfl, rfl⟩
    show OptionsModel.mapGet (OptionsModel.heapSet h f.Filters k v f.Filters) k = some v
    unfold OptionsModel.heapSet
    rw [if_pos rfl]
    exact mapGet_mapSet _ k v
  · intro u k v h
    refine ⟨rfl, rfl, ?_, rfl, rfl, ?_⟩
    · show OptionsModel.mapGet
        (OptionsModel.heapSet h u.Assignments k v u.Assignments) k = some v
      unfold OptionsModel.heapSet
      rw [if_pos rfl]
      exact mapGet_mapSet _ k v
    · show OptionsModel.mapGet (OptionsModel.heapSet h u.Filters k v u.Filters) k = some v
      unfold OptionsModel.heapSet
      rw [if_pos rfl]
      exact mapGet_mapSet _ k v
  · intro d k v h
    refine ⟨rfl, ?_, rfl⟩
    show OptionsModel.mapGet (OptionsModel.heapSet h d.Filters k v d.Filters) k = some v
    unfold OptionsModel.heapSet
    rw [if_pos rfl]
    exact mapGet_mapSet _ k v
  · intro f fields
    exact ⟨rfl, rfl, rfl, rfl, rfl⟩
  · intro f mode
    exact ⟨rfl, rfl, rfl, rfl, rfl⟩
  · intro f fields
    exact ⟨rfl, rfl, rfl⟩
  · intro f n
    exact ⟨rfl, rfl, rfl, rfl, rfl, rfl, rfl, rfl⟩
  · intro f n
    exact ⟨rfl, rfl, rfl⟩
  · intro f ob
    exact ⟨rfl, rfl, rfl⟩
  · intro f mode
    exact ⟨rfl, rfl, rfl⟩
